import Mathlib

/-!
# Verification of the PyTorch JIT tracing / script / ONNX-export slice

A shallow embedding, in Lean 4, of the JIT intermediate-representation slice of
the repository: the ONNX exporter (`torch/csrc/jit/export.cpp`), the tracer
entry/exit logic (`torch/csrc/jit/tracer.h`), the script-language
recursive-descent parser (`torch/csrc/jit/script/parser.h`) and the
`SugaredValue` capability dispatch (`torch/csrc/jit/script/compiler.h`),
together with theorems checking the natural-language specification against it.

Modelling conventions:
* C++ exceptions (`throw std::runtime_error`, `ErrorReport`) become
  `Except`-valued functions; the first failure propagates.
* Machine floats in attribute payloads and numeric literals are modelled by `ℚ`
  (no claim under scrutiny depends on floating-point rounding).
* `at::Tensor` is opaque per the spec's external tensor contract: shape,
  element kind, and an identifier standing for its raw byte payload.
* Types defined in headers that are not part of the sampled sources
  (`ir.h`, `lexer.h`, `tree_views.h`, `onnx.h`) are reconstructed from the
  spec; each such definition carries a doc comment saying so.
-/

namespace TorchJit

/-! ## Shared utilities -/

/-- ASCII upper-case letter test, modelling C `isupper` in the default locale. -/
def isUpperAscii (ch : Char) : Bool :=
  'A' ≤ ch && ch ≤ 'Z'

/-- `strInfix needle hay`: `needle` occurs contiguously inside `hay`. -/
def strInfix (needle hay : String) : Prop :=
  needle.toList <:+: hay.toList

instance (needle hay : String) : Decidable (strInfix needle hay) := by
  unfold strInfix
  infer_instance

theorem strInfix_of_parts (needle hay pre post : String)
    (h : hay = pre ++ needle ++ post) : strInfix needle hay := by
  subst h
  refine ⟨pre.toList, post.toList, ?_⟩
  simp [String.toList]

namespace Onnx

/-! ## Data model for the exporter (`torch/csrc/jit/export.cpp`)

The IR types (`Graph`, `Node`, `Value`) live in `ir.h`, which is not among the
sampled sources; they are reconstructed here from spec §3.  The encoding and
validation functions below are translated from `export.cpp` itself. -/

/-- `at::ScalarType` element kinds: the seven kinds the exporter maps, plus
`other` standing for every remaining kind (which hits the `default:` branch). -/
inductive ScalarType where
  | double | float | half | byte | char | short | int | long | other
deriving DecidableEq, Repr

/-- ONNX element-kind codes (`onnx::DataType` from `onnx.h`, not among the
sampled sources; the spec describes a fixed enumeration of numeric codes). -/
inductive DataType where
  | kDOUBLE | kFLOAT | kFLOAT16 | kINT8 | kINT16 | kINT32 | kINT64
deriving DecidableEq, Repr

/-- Opaque tensor value per the spec's external tensor contract (§6): sizes,
element kind, and an identifier standing for the raw byte payload
(`contiguous().toBackend(kCPU)` copies preserve the bytes). -/
structure Tensor where
  sizes : List Int
  scalarType : ScalarType
  rawData : Nat
deriving DecidableEq, Repr

/-- A `Value`'s type descriptor: dynamic/untyped, or tensor-shaped
(spec §3, `Value`). -/
inductive VType where
  | dynamic
  | tensorType (scalarType : ScalarType) (sizes : List Int)
deriving DecidableEq, Repr

/-- An SSA `Value` as the exporter consumes it (spec §3): its unique name, the
kind of its producing node (`value->node()->kind()`), and its type. -/
structure EValue where
  uniqueName : String
  producerKind : String
  vtype : VType
deriving DecidableEq, Repr

/-- Which concrete `Node` subclass a node is: `CppOp` and `PythonOp` (each
carrying its `name()`) are the embedding-host operator nodes rejected by
validation; every other node is a plain IR node. -/
inductive NodeVariant where
  | baseOp
  | cppOp (opName : String)
  | pythonOp (opName : String)
deriving DecidableEq, Repr

mutual
/-- Typed attribute values (spec §3 lists the ten variants, matching
`AttributeKind` `f/fs/i/is/s/ss/t/ts/g/gs`). -/
inductive AttrValue where
  | f (v : ℚ)
  | fs (vs : List ℚ)
  | i (v : Int)
  | is (vs : List Int)
  | s (v : String)
  | ss (vs : List String)
  | t (v : Tensor)
  | ts (vs : List Tensor)
  | g (v : EGraph)
  | gs (vs : List EGraph)

/-- An IR `Node` as the exporter consumes it: subclass variant, kind string,
input/output values, named attributes, optional source location (already
rendered, as `SourceLocation::highlight` would print it). -/
inductive ENode where
  | mk (variant : NodeVariant) (kind : String) (inputs : List EValue)
       (outputs : List EValue) (attrs : List (String × AttrValue))
       (srcLoc : Option String)

/-- An IR `Graph` as the exporter consumes it: ordered inputs, outputs and
nodes (spec §3). -/
inductive EGraph where
  | mk (inputs : List EValue) (outputs : List EValue) (nodes : List ENode)
end

def ENode.variant : ENode → NodeVariant
  | .mk v _ _ _ _ _ => v

def ENode.kind : ENode → String
  | .mk _ k _ _ _ _ => k

def ENode.inputs : ENode → List EValue
  | .mk _ _ ins _ _ _ => ins

def ENode.outputs : ENode → List EValue
  | .mk _ _ _ outs _ _ => outs

def ENode.attrs : ENode → List (String × AttrValue)
  | .mk _ _ _ _ a _ => a

def ENode.srcLoc : ENode → Option String
  | .mk _ _ _ _ _ l => l

def EGraph.inputs : EGraph → List EValue
  | .mk ins _ _ => ins

def EGraph.outputs : EGraph → List EValue
  | .mk _ outs _ => outs

def EGraph.nodes : EGraph → List ENode
  | .mk _ _ ns => ns

/-- The interned symbol `kUndefined` ( `interned_strings.h` is not among the
sampled sources; `Undefined` nodes implement optional inputs, per the comment
in `encodeGraph`). -/
def kUndefined : String := "Undefined"

/-- The interned symbol `kExpand`: the capitalized shape-broadcast expand
operation the exporter rejects ("NB: Upper-case is ONNX"). -/
def kExpand : String := "Expand"

/-! ### Interchange-format records (`onnx.h` wrappers, reconstructed from
spec §6: a versioned container with a graph of named/typed inputs, named
outputs, an ordered node list and named initializer constants). -/

/-- `onnx::TensorProto`: dims, element-kind code, raw payload, optional name. -/
structure TensorProto where
  dims : List Int
  dataType : DataType
  rawData : Nat
  name : String
deriving DecidableEq, Repr

/-- `onnx::ValueInfoProto`: a named input/output record with its tensor type. -/
structure ValueInfoProto where
  name : String
  dataType : DataType
  shape : List Int
deriving DecidableEq, Repr

/-- `onnx::AttributeProto` type tags. -/
inductive AttrTag where
  | aFLOAT | aFLOATS | aINT | aINTS | aSTRING | aSTRINGS
  | aTENSOR | aTENSORS | aGRAPH | aGRAPHS
deriving DecidableEq, Repr

mutual
/-- The payload field of an `onnx::AttributeProto` that `addAttribute` sets
(exactly one per attribute). -/
inductive AttrPayload where
  | pf (v : ℚ)
  | pfs (vs : List ℚ)
  | pi (v : Int)
  | pis (vs : List Int)
  | ps (v : String)
  | pss (vs : List String)
  | pt (v : TensorProto)
  | pts (vs : List TensorProto)
  | pg (v : GraphProto)
  | pgs (vs : List GraphProto)

/-- `onnx::AttributeProto`: name, type tag, payload. -/
inductive AttrProto where
  | mk (name : String) (tag : AttrTag) (payload : AttrPayload)

/-- `onnx::NodeProto`: doc string (the highlighted source location, when
present), input name references, output name references, operator type,
attribute list. -/
inductive NodeProto where
  | mk (docString : Option String) (inputs : List String)
       (outputs : List String) (opType : String) (attributes : List AttrProto)

/-- `onnx::GraphProto`. -/
inductive GraphProto where
  | mk (name : String) (inputs : List ValueInfoProto)
       (outputs : List ValueInfoProto) (nodes : List NodeProto)
       (initializers : List TensorProto)
end

def NodeProto.docString : NodeProto → Option String
  | .mk d _ _ _ _ => d

def NodeProto.inputs : NodeProto → List String
  | .mk _ ins _ _ _ => ins

def NodeProto.outputs : NodeProto → List String
  | .mk _ _ outs _ _ => outs

def NodeProto.opType : NodeProto → String
  | .mk _ _ _ op _ => op

def NodeProto.attributes : NodeProto → List AttrProto
  | .mk _ _ _ _ a => a

def GraphProto.name : GraphProto → String
  | .mk n _ _ _ _ => n

def GraphProto.inputs : GraphProto → List ValueInfoProto
  | .mk _ ins _ _ _ => ins

def GraphProto.outputs : GraphProto → List ValueInfoProto
  | .mk _ _ outs _ _ => outs

def GraphProto.nodes : GraphProto → List NodeProto
  | .mk _ _ _ ns _ => ns

def GraphProto.initializers : GraphProto → List TensorProto
  | .mk _ _ _ _ inits => inits

/-- `onnx::ModelProto` as `ExportGraph` fills it in. -/
structure ModelProto where
  producerName : String
  producerVersion : String
  opsetVersion : Int
  graph : GraphProto

/-! ### Encoding (`export.cpp`, `encodeTensor` .. `encodeModel`) -/

/-- The fixed element-kind mapping switch that appears (twice) in
`encodeTensor` and `encodeTypeProtoTensorType`; the `default:` branch calls
`torch::barf("unexpected tensor scalar type")`. -/
def scalarTypeToOnnx : ScalarType → Except String DataType
  | .double => .ok .kDOUBLE
  | .float => .ok .kFLOAT
  | .half => .ok .kFLOAT16
  | .byte => .ok .kINT8
  | .char => .ok .kINT8
  | .short => .ok .kINT16
  | .int => .ok .kINT32
  | .long => .ok .kINT64
  | .other => .error "unexpected tensor scalar type"

/-- `encodeTensor` (without the name, which only the initializer loop sets). -/
def encodeTensor (tensor : Tensor) : Except String TensorProto :=
  match scalarTypeToOnnx tensor.scalarType with
  | .error e => .error e
  | .ok dt => .ok ⟨tensor.sizes, dt, tensor.rawData, ""⟩

/-- `encodeValueInfo` / `encodeTypeProtoTensorType`: name from
`value_name` (= `uniqueName`), then the tensor type; `type()->expect<TensorType>()`
fails on a dynamic/untyped value. -/
def encodeValueInfo (v : EValue) : Except String ValueInfoProto :=
  match v.vtype with
  | .dynamic => .error "expected TensorType"
  | .tensorType sc sizes =>
    match scalarTypeToOnnx sc with
    | .error e => .error e
    | .ok dt => .ok ⟨v.uniqueName, dt, sizes⟩

/-- The `add_input` / `add_output` loops over a graph's values. -/
def encodeValueInfos : List EValue → Except String (List ValueInfoProto)
  | [] => .ok []
  | v :: rest =>
    match encodeValueInfo v with
    | .error e => .error e
    | .ok p =>
      match encodeValueInfos rest with
      | .error e => .error e
      | .ok ps => .ok (p :: ps)

/-- `p_g->get_input_name(i)`: reads the name of the `i`-th input record of the
proto built so far.  In C++ an out-of-range index is undefined behaviour; the
model returns `""` there. -/
def getInputName (inputs : List ValueInfoProto) (idx : Int) : String :=
  match inputs.get? idx.toNat with
  | some v => v.name
  | none => ""

/-- The initializer loop at the end of `encodeGraph`: each tensor is named
after the input record at position `inputs_count` (which starts at
`inputs().size() - initializers.size()`) and appended, purely by position. -/
def encodeInitializers (inputs : List ValueInfoProto) (inputsCount : Int) :
    List Tensor → Except String (List TensorProto)
  | [] => .ok []
  | tensor :: rest =>
    match encodeTensor tensor with
    | .error e => .error e
    | .ok p =>
      match encodeInitializers inputs (inputsCount + 1) rest with
      | .error e => .error e
      | .ok ps => .ok ({ p with name := getInputName inputs inputsCount } :: ps)

/-- Rendering of one node input reference: an input produced by an `Undefined`
node is encoded as the empty-string name, every other input by its unique
name (`encodeGraph`, node loop). -/
def renderInputRef (v : EValue) : String :=
  if v.producerKind = kUndefined then "" else v.uniqueName

mutual
/-- `addAttribute`: dispatch on the attribute kind, setting the matching
payload and type tag; tensor and subgraph payloads recurse into
`encodeTensor` / `encodeGraph` (subgraphs are encoded with no initializers). -/
def encodeAttr : String × AttrValue → Except String AttrProto
  | (name, .f v) => .ok (.mk name .aFLOAT (.pf v))
  | (name, .fs vs) => .ok (.mk name .aFLOATS (.pfs vs))
  | (name, .i v) => .ok (.mk name .aINT (.pi v))
  | (name, .is vs) => .ok (.mk name .aINTS (.pis vs))
  | (name, .s v) => .ok (.mk name .aSTRING (.ps v))
  | (name, .ss vs) => .ok (.mk name .aSTRINGS (.pss vs))
  | (name, .t v) =>
    match encodeTensor v with
    | .error e => .error e
    | .ok p => .ok (.mk name .aTENSOR (.pt p))
  | (name, .ts vs) =>
    match encodeTensorList vs with
    | .error e => .error e
    | .ok ps => .ok (.mk name .aTENSORS (.pts ps))
  | (name, .g v) =>
    match encodeGraph v [] with
    | .error e => .error e
    | .ok p => .ok (.mk name .aGRAPH (.pg p))
  | (name, .gs vs) =>
    match encodeGraphList vs with
    | .error e => .error e
    | .ok ps => .ok (.mk name .aGRAPHS (.pgs ps))

def encodeTensorList : List Tensor → Except String (List TensorProto)
  | [] => .ok []
  | v :: rest =>
    match encodeTensor v with
    | .error e => .error e
    | .ok p =>
      match encodeTensorList rest with
      | .error e => .error e
      | .ok ps => .ok (p :: ps)

def encodeGraphList : List EGraph → Except String (List GraphProto)
  | [] => .ok []
  | g :: rest =>
    match encodeGraph g [] with
    | .error e => .error e
    | .ok p =>
      match encodeGraphList rest with
      | .error e => .error e
      | .ok ps => .ok (p :: ps)

def encodeAttrList : List (String × AttrValue) → Except String (List AttrProto)
  | [] => .ok []
  | a :: rest =>
    match encodeAttr a with
    | .error e => .error e
    | .ok p =>
      match encodeAttrList rest with
      | .error e => .error e
      | .ok ps => .ok (p :: ps)

/-- The body of the node loop in `encodeGraph` for one (non-`Undefined`)
node: doc string from the highlighted source location if present, input name
references (empty for `Undefined` producers), output names, op type,
attributes. -/
def encodeNode : ENode → Except String NodeProto
  | .mk _ kind inputs outputs attrs srcLoc =>
    match encodeAttrList attrs with
    | .error e => .error e
    | .ok ps =>
      .ok (.mk srcLoc (inputs.map renderInputRef)
             (outputs.map EValue.uniqueName) kind ps)

/-- The node loop in `encodeGraph`: nodes of kind `Undefined` are skipped
(`continue`), every other node is encoded and appended in graph order. -/
def encodeNodeList : List ENode → Except String (List NodeProto)
  | [] => .ok []
  | n :: rest =>
    if n.kind = kUndefined then
      encodeNodeList rest
    else
      match encodeNode n with
      | .error e => .error e
      | .ok p =>
        match encodeNodeList rest with
        | .error e => .error e
        | .ok ps => .ok (p :: ps)

/-- `encodeGraph`: inputs, outputs, nodes, then the positional initializer
loop, in program order (first failure propagates). -/
def encodeGraph : EGraph → List Tensor → Except String GraphProto
  | .mk ins outs ns, initializers =>
    match encodeValueInfos ins with
    | .error e => .error e
    | .ok inputProtos =>
      match encodeValueInfos outs with
      | .error e => .error e
      | .ok outputProtos =>
        match encodeNodeList ns with
        | .error e => .error e
        | .ok nodeProtos =>
          match encodeInitializers inputProtos
              ((ins.length : Int) - (initializers.length : Int)) initializers with
          | .error e => .error e
          | .ok inits =>
            .ok (.mk "torch-jit-export" inputProtos outputProtos nodeProtos inits)
end

/-! ### Validation (`validateGraph`) and the export entry point -/

/-- `getNodeStackTraceString`: renders `getSourceLocation()->highlight`.  The
C++ dereferences the location unconditionally (a node without one would
crash); the model renders a missing location as the empty string. -/
def getNodeStackTraceString (n : ENode) : String :=
  match n.srcLoc with
  | some s => s
  | none => ""

/-- Modelled from the spec: `Graph::toString` lives in `ir.cpp`, which is not
among the sampled sources.  The spec only requires "the current graph's
textual form"; we render the graph as its node kinds, one per line. -/
def graphToString (g : EGraph) : String :=
  "graph(...):\n" ++ String.intercalate "\n" (g.nodes.map ENode.kind)

/-- The `FAIL_EXPORT` macro: prefix, reason, then the graph's textual form. -/
def failExportMsg (g : EGraph) (name : String) : String :=
  "ONNX export failed: " ++ name ++ "\n\nGraph we tried to export:\n"
    ++ graphToString g

/-- The body of the `validateGraph` loop for one node: `CppOp` and `PythonOp`
are rejected, then the `Expand` kind, then an empty kind name, then any kind
whose first character is not upper-case (lower-case is the ATen namespace). -/
def validateNode (g : EGraph) (n : ENode) : Except String Unit :=
  match n.variant with
  | .cppOp opName =>
    .error (failExportMsg g ("Couldn't export C++ operator " ++ opName
      ++ " Defined at:\n" ++ getNodeStackTraceString n))
  | .pythonOp opName =>
    .error (failExportMsg g ("Couldn't export Python operator " ++ opName
      ++ " Defined at:\n" ++ getNodeStackTraceString n))
  | .baseOp =>
    if n.kind = kExpand then
      .error (failExportMsg g ("Couldn't export operator expand; this usually means you used a form of broadcasting that ONNX does not currently support. Node defined at:\n"
        ++ getNodeStackTraceString n))
    else
      match n.kind.toList with
      | [] =>
        .error (failExportMsg g "Operator to export had empty name (please file an issue)")
      | ch :: _ =>
        if !isUpperAscii ch then
          .error (failExportMsg g ("Couldn't export operator " ++ n.kind
            ++ " Defined at:\n" ++ getNodeStackTraceString n))
        else
          .ok ()

/-- The `validateGraph` loop over the node list; the first rejection throws. -/
def validateNodeList (g : EGraph) : List ENode → Except String Unit
  | [] => .ok ()
  | n :: rest =>
    match validateNode g n with
    | .error e => .error e
    | .ok () => validateNodeList g rest

def validateGraph (g : EGraph) : Except String Unit :=
  validateNodeList g g.nodes

/-- `ExportGraph`: validates first, then encodes the model (producer identity
and the caller's opset version).  The final nanopb byte serialization of the
completed `ModelProto` is host glue outside the modelled core: an `.error`
result means validation or encoding threw before any output bytes exist. -/
def ExportGraph (g : EGraph) (initializers : List Tensor)
    (onnxOpsetVersion : Int) : Except String ModelProto :=
  match validateGraph g with
  | .error e => .error e
  | .ok () =>
    match encodeGraph g initializers with
    | .error e => .error e
    | .ok gp => .ok ⟨"pytorch", "0.3", onnxOpsetVersion, gp⟩

end Onnx

namespace Tracer

/-! ## Tracer (`torch/csrc/jit/tracer.h`)

The IR under construction (`ir.h`) and the autograd `Variable` are not among
the sampled sources; they are reconstructed from spec §3 (Graph/Value data
model, TracingState) and §6 (tensor value contract).  `enter`,
`detail::_exit`, `getOutputTrace`, `setValueTrace` and the value-state lookup
are translated from `tracer.h`.

Weak-reference bookkeeping: in C++ each `Variable` carries a list of
`(weak TracingState, trace Value)` associations, and every lookup names the
state it is interested in (`detail::getValueState`), lazily garbage-collecting
entries whose state died.  Relative to one live `TracingState` this is
exactly a finite map from variable identity to the recorded `Value`, which is
how the model stores it (`TracingState.assoc`); the lazy GC of dead weak
entries is unobservable for a live state and has no model counterpart. -/

/-- An autograd `Variable`: undefined, or a defined variable with an object
identity `vid`, a user-visible name and sizes. -/
inductive Variable where
  | undef
  | dvar (vid : Nat) (vname : String) (sizes : List Int)
deriving DecidableEq, Repr

def Variable.defined : Variable → Bool
  | .undef => false
  | .dvar .. => true

def Variable.vid : Variable → Nat
  | .undef => 0
  | .dvar id _ _ => id

def Variable.vname : Variable → String
  | .undef => ""
  | .dvar _ nm _ => nm

def Variable.sizes : Variable → List Int
  | .undef => []
  | .dvar _ _ szs => szs

/-- `Variable::view(sizes)`, as `enter` uses it on a repeated input: an
aliasing no-op reshape that yields a fresh variable identity over the same
data.  `freshId` supplies the new identity (threading the host allocator). -/
def Variable.view (_v : Variable) (sizes : List Int) (freshId : Nat) : Variable :=
  .dvar freshId "" sizes

/-- `VariableFlags::of` snapshot (autograd is an external collaborator; the
spec only asks for per-stage input/output flag metadata). -/
structure VariableFlags where
  wasDefined : Bool
deriving DecidableEq, Repr

def VariableFlags.of (v : Variable) : VariableFlags :=
  ⟨v.defined⟩

/-- `detail::getVarFlags`. -/
def getVarFlags (vars : List Variable) : List VariableFlags :=
  vars.map VariableFlags.of

/-- An IR `Value` in the graph under construction: process-unique id, name,
optional tensor sizes (set by `inferTypeFrom`). -/
structure TValue where
  vid : Nat
  vname : String
  typeSizes : Option (List Int)
deriving DecidableEq, Repr

/-- A node appended to the graph under construction (only its kind and output
value ids matter to the claims about `tracer.h`). -/
structure TNode where
  kind : String
  outputs : List Nat
deriving DecidableEq, Repr

/-- The `Graph` under construction (spec §3): ordered inputs, appended nodes,
registered output value ids, a fresh unique-id counter and the stage counter. -/
structure TGraph where
  inputs : List TValue
  nodes : List TNode
  outputs : List Nat
  nextUnique : Nat
  stage : Nat
deriving DecidableEq, Repr

/-- `graph->addInput(name)` followed by `inferTypeFrom` on the same fresh
value (the intermediate untyped state is unobservable): appends a new input
value and returns it. -/
def TGraph.addInput (g : TGraph) (name : String) (tySizes : Option (List Int)) :
    TValue × TGraph :=
  let v : TValue := ⟨g.nextUnique, name, tySizes⟩
  (v, { g with inputs := g.inputs ++ [v], nextUnique := g.nextUnique + 1 })

/-- `graph->appendNode(graph->createUndefined())->output()`. -/
def TGraph.appendUndefined (g : TGraph) : Nat × TGraph :=
  (g.nextUnique,
   { g with nodes := g.nodes ++ [⟨"Undefined", [g.nextUnique]⟩],
            nextUnique := g.nextUnique + 1 })

/-- `graph->registerOutput(value)`. -/
def TGraph.registerOutput (g : TGraph) (vid : Nat) : TGraph :=
  { g with outputs := g.outputs ++ [vid] }

/-- One trace session (spec §3 `TracingState`): the graph under construction,
the trace map from variable identity to recorded value id, the buffer map
from tensor identity to value id, the active flag, per-stage flag snapshots,
and the inputs remembered for the backward hook. -/
structure TracingState where
  graph : TGraph
  assoc : List (Nat × Nat)
  bufferMap : List (Nat × Nat)
  active : Bool
  varFlags : List (List VariableFlags × List VariableFlags)
  inputs : List Variable
deriving DecidableEq, Repr

/-- Lookup in the trace map: `detail::getValueState(state, var, false)`
restricted to one live state (see the note on weak references above). -/
def assocFind : List (Nat × Nat) → Nat → Option Nat
  | [], _ => none
  | (k, v) :: rest, key => if k = key then some v else assocFind rest key

/-- `setValueTrace` (via `getValueState(state, var, true)`): overwrite the
existing entry's trace, or allocate a fresh entry at the front. -/
def assocSet (l : List (Nat × Nat)) (k v : Nat) : List (Nat × Nat) :=
  if (assocFind l k).isSome then
    l.map fun p => if p.1 = k then (k, v) else p
  else
    (k, v) :: l

/-- `getOutputTrace(state, var, output_no)`: an undefined output becomes a
fresh `Undefined` node's output; a defined output must already be associated
with this state, else the "no observable data dependence" error names the
output's index. -/
def getOutputTrace (st : TracingState) (var : Variable) (outputNo : Nat) :
    Except String (Nat × TracingState) :=
  match var with
  | .undef =>
    let (vid, g) := st.graph.appendUndefined
    .ok (vid, { st with graph := g })
  | .dvar id _ _ =>
    match assocFind st.assoc id with
    | some vid => .ok (vid, st)
    | none =>
      .error ("output " ++ toString outputNo
        ++ " of traced region did not have observable data dependence with trace inputs; this probably indicates your program cannot be understood by the tracer.")

/-- The output-registration loop of `detail::_exit` with its running index. -/
def exitLoop (st : TracingState) (outputs : List Variable) (i : Nat) :
    Except String TracingState :=
  match outputs with
  | [] => .ok st
  | o :: rest =>
    match getOutputTrace st o i with
    | .error e => .error e
    | .ok (vid, st') =>
      exitLoop { st' with graph := st'.graph.registerOutput vid } rest (i + 1)

/-- `detail::_exit`: register every output trace in argument order, mark the
state inactive, and snapshot the output flags for the current stage. -/
def _exit (st : TracingState) (outputs : List Variable) :
    Except String TracingState :=
  match exitLoop st outputs 0 with
  | .error e => .error e
  | .ok st' =>
    .ok { st' with
          active := false,
          varFlags := st'.varFlags.set st'.graph.stage
            ((st'.varFlags.getD st'.graph.stage ([], [])).1, getVarFlags outputs) }

/-- A buffer passed as a trace input: its `TH` pointer identity and sizes. -/
structure BufTensor where
  bid : Nat
  bsizes : List Int
deriving DecidableEq, Repr

/-- `TraceInput`: at most one of `var` / `buffer` is meaningful ("only one
field may be non-null"); `enter` asserts the other is undefined. -/
structure TraceInput where
  var : Variable
  buffer : Option BufTensor
deriving DecidableEq, Repr

/-- The input-registration loop of `enter`.  A defined variable already
associated with this very state is first aliased by a no-op `view` of its own
sizes (Note [Repeated inputs]), then registered as a graph input and
associated; a buffer becomes an unnamed graph input recorded in the buffer
map (and is not pushed onto the returned input list).  `fresh` threads the
allocator for new variable identities created by `view`. -/
def enterLoop (st : TracingState) (acc : List Variable) (fresh : Nat) :
    List TraceInput → Except String (TracingState × List Variable × Nat)
  | [] => .ok (st, acc, fresh)
  | tin :: rest =>
    if tin.var.defined then
      match tin.buffer with
      | some _ => .error "JIT_ASSERT(!trace_input.buffer.defined()) failed"
      | none =>
        let input0 := tin.var
        let (input, fresh') :=
          match assocFind st.assoc input0.vid with
          | some _ => (input0.view input0.sizes fresh, fresh + 1)
          | none => (input0, fresh)
        let (inputNode, g') := st.graph.addInput input.vname (some input.sizes)
        enterLoop
          { st with graph := g', assoc := assocSet st.assoc input.vid inputNode.vid }
          (acc ++ [input]) fresh' rest
    else
      match tin.buffer with
      | none => .error "JIT_ASSERT(trace_input.buffer.defined()) failed"
      | some b =>
        let (n, g') := st.graph.addInput "" (some b.bsizes)
        enterLoop
          { st with graph := g', bufferMap := st.bufferMap ++ [(b.bid, n.vid)] }
          acc fresh rest

/-- `enter(trace_inputs, num_stages)`: create a fresh `TracingState`, register
every trace input, snapshot the input flags of stage 0, mark the state active
and remember the (possibly rewritten) inputs.  Returns the state, the
rewritten input list, and the threaded identity allocator. -/
def enter (traceInputs : List TraceInput) (numStages : Nat) (fresh : Nat) :
    Except String (TracingState × List Variable × Nat) :=
  let st0 : TracingState :=
    { graph := ⟨[], [], [], 0, 0⟩, assoc := [], bufferMap := []
      active := false, varFlags := List.replicate numStages ([], []), inputs := [] }
  match enterLoop st0 [] fresh traceInputs with
  | .error e => .error e
  | .ok (st, ins, fresh') =>
    .ok ({ st with
           varFlags := st.varFlags.set 0
             (getVarFlags ins, (st.varFlags.getD 0 ([], [])).2),
           active := true,
           inputs := ins },
         ins, fresh')

end Tracer

namespace Script

/-! ## Script front end (`torch/csrc/jit/script/parser.h`, `compiler.h`)

The lexer (`lexer.h`) is an external collaborator per spec §4.4 ("tokenizes
into an indentation-sensitive token stream"): the model takes the token
stream as input.  Token kinds, the `SharedParserData` precedence table and
the tree-view constructors (`tree.h` / `tree_views.h`) are reconstructed from
the spec; every parsing function is translated from `parser.h` itself. -/

/-- Token kinds (and the extra tree-only kinds the parser builds compounds
with).  Single-character C++ kinds such as `'('` or `'+'` get named
constructors. -/
inductive TokenKind where
  | tkNumber | tkIdent | tkString | tkTrue | tkFalse
  | tkFloat | tkInt | tkLong | tkDouble
  | tkIf | tkElse | tkWhile | tkDef | tkReturn | tkGlobal
  | tkNewline | tkIndent | tkDedent | tkEOF
  | tkAnd | tkOr | tkNot
  | lparen | rparen | lbracket | rbracket
  | plus | minus | star | slash
  | ltTok | gtTok
  | eqTok | plusEq | minusEq | timesEq | divEq
  | colon | comma | dot
  | tkIfExpr | tkConst | tkOption | tkList | tkListLiteral
  | tkVar | tkApply | tkSelect | tkGather | tkSlice | tkCast
  | tkAssign | tkExprStmt | tkParam | tkTensorType | tkInferred | tkAttribute
deriving DecidableEq, Repr

/-- A token: kind, source range (modelled as an offset), and text. -/
structure Token where
  kind : TokenKind
  range : Nat
  text : String
deriving DecidableEq, Repr

/-- The exact decimal value of a numeric literal, `mant / 10 ^ exp`: stands
in for the lexer's `double`.  The parser only ever negates a literal
(`mult *= -1.0f`), which is exact, so no floating-point behaviour is lost. -/
structure DecNum where
  mant : Int
  exp : Nat
deriving DecidableEq, Repr

/-- `mult * value` as `parseConst` computes it (`mult` is always `±1`). -/
def DecNum.scaleBy (d : DecNum) (mult : Int) : DecNum :=
  ⟨mult * d.mant, d.exp⟩

/-- The tree the parser builds (`tree.h`): `Number` and `String` leaves and
`Compound` nodes carrying a kind, a source range and subtrees. -/
inductive Tree where
  | num (value : DecNum)
  | strlit (value : String)
  | compound (kind : TokenKind) (range : Nat) (subtrees : List Tree)

/-- A tree's kind (leaves report their literal kinds). -/
def Tree.kindOf : Tree → TokenKind
  | .num _ => .tkNumber
  | .strlit _ => .tkString
  | .compound k _ _ => k

/-- A tree's range (`Compound::range`); leaves have no range of their own. -/
def Tree.range : Tree → Nat
  | .num _ => 0
  | .strlit _ => 0
  | .compound _ r _ => r

def Tree.subtrees : Tree → List Tree
  | .num _ => []
  | .strlit _ => []
  | .compound _ _ ts => ts

/-- `tree->trees()[i]`, with the C++ out-of-range read (undefined behaviour)
modelled as an empty `String` leaf. -/
def Tree.treeD (t : Tree) (i : Nat) : Tree :=
  (t.subtrees.getD i (.strlit ""))

/-- `ErrorReport` (`error_report.h`): a source range plus the streamed
message text. -/
structure ErrorReport where
  range : Nat
  msg : String
deriving DecidableEq, Repr

/-- Parse results: the value plus the remaining token stream, or the thrown
`ErrorReport`. -/
abbrev PRes (α : Type) := Except ErrorReport (α × List Token)

/-- `L.cur()`: the lexer pads the end of input with `TK_EOF`. -/
def curTok (toks : List Token) : Token :=
  toks.headD ⟨.tkEOF, 0, ""⟩

/-- `L.lookahead()`. -/
def lookaheadTok (toks : List Token) : Token :=
  (toks.drop 1).headD ⟨.tkEOF, 0, ""⟩

/-- `L.next()`: consume the current token. -/
def nextToks (toks : List Token) : List Token :=
  toks.drop 1

/-- `L.nextIf(kind)`: consume the current token iff it has the given kind. -/
def nextIf (kind : TokenKind) (toks : List Token) : Bool × List Token :=
  if (curTok toks).kind = kind then (true, nextToks toks) else (false, toks)

/-- `L.expect(kind)`: return and consume the current token if it has the
given kind, else report an error at it (the exact message is the lexer's,
which is external; only its location matters to the claims). -/
def expectTok (kind : TokenKind) (toks : List Token) : PRes Token :=
  if (curTok toks).kind = kind then .ok (curTok toks, nextToks toks)
  else .error ⟨(curTok toks).range, "expected token"⟩

/-- Modelled from the spec: `SharedParserData::isUnary` (`lexer.h` is not
among the sampled sources).  Unary operators and their precedences. -/
def isUnary : TokenKind → Option Nat
  | .tkNot => some 4
  | .minus => some 8
  | _ => none

/-- Modelled from the spec: `SharedParserData::isBinary`.  Spec §4.4/§8 fixes
the shape of the table: the ternary `if` is a binary-level special case and
binds loosest, boolean operators next, comparisons next, multiplication binds
strictly tighter than addition. -/
def isBinary : TokenKind → Option Nat
  | .tkIf => some 1
  | .tkOr => some 2
  | .tkAnd => some 3
  | .ltTok => some 5
  | .gtTok => some 5
  | .plus => some 6
  | .minus => some 6
  | .star => some 7
  | .slash => some 7
  | _ => none

/-- Modelled from the spec: the ternary `a if b else c` nests to the right. -/
def isRightAssociative : TokenKind → Bool
  | .tkIf => true
  | _ => false

/-- Decimal digit accumulation for `doubleValue`. -/
def digitsVal (cs : List Char) : Nat :=
  cs.foldl (fun a c => a * 10 + (c.toNat - '0'.toNat)) 0

/-- Split a literal's characters at the first `'.'`. -/
def splitAtDot : List Char → List Char × Option (List Char)
  | [] => ([], none)
  | c :: rest =>
    if c = '.' then ([], some rest)
    else
      let (ip, fp) := splitAtDot rest
      (c :: ip, fp)

/-- Modelled from the spec: `Token::doubleValue` of the external lexer reads
the numeric literal's text (digits with an optional decimal point). -/
def doubleValue (s : String) : DecNum :=
  match splitAtDot s.toList with
  | (ip, none) => ⟨digitsVal ip, 0⟩
  | (ip, some fp) => ⟨digitsVal ip * 10 ^ fp.length + digitsVal fp, fp.length⟩

/-- `Ident::create(range, text)`. -/
def mkIdent (range : Nat) (text : String) : Tree :=
  .compound .tkIdent range [.strlit text]

/-- The `while (L.nextIf('-')) mult *= -1.0f;` loop of `parseConst` (the
float `mult` only ever holds `±1`, modelled exactly on `ℤ`). -/
def munchMinuses (mult : Int) (toks : List Token) : Int × List Token :=
  match toks with
  | [] => (mult, toks)
  | t :: rest =>
    if t.kind = .minus then munchMinuses (mult * (-1)) rest else (mult, toks)

/-- `Parser::parseConst` (`parser.h`): `true`/`false` fold to `1`/`0` tagged
`"b"`; a number is tagged `"f"` when its text contains `'.'`, else `"i"`,
unless an explicit identifier suffix follows, which must be exactly `"LL"` or
`"f"` and becomes the tag. -/
def parseConst (toks : List Token) : PRes Tree :=
  let range := (curTok toks).range
  if (curTok toks).kind = .tkTrue then
    .ok (.compound .tkConst range [.num ⟨1, 0⟩, .strlit "b"], nextToks toks)
  else if (curTok toks).kind = .tkFalse then
    .ok (.compound .tkConst range [.num ⟨0, 0⟩, .strlit "b"], nextToks toks)
  else
    let (mult, toks) := munchMinuses 1 toks
    match expectTok .tkNumber toks with
    | .error e => .error e
    | .ok (t, toks) =>
      let typeIdent := if t.text.toList.contains '.' then "f" else "i"
      if (curTok toks).kind = .tkIdent then
        match expectTok .tkIdent toks with
        | .error e => .error e
        | .ok (typeIdentTok, toks) =>
          let typeIdent := typeIdentTok.text
          if typeIdent ≠ "LL" ∧ typeIdent ≠ "f" then
            .error ⟨typeIdentTok.range,
              "expected 'f' or 'LL' as numeric type identifier but found '"
                ++ typeIdent ++ "'"⟩
          else
            .ok (.compound .tkConst t.range
                  [.num ((doubleValue t.text).scaleBy mult), .strlit typeIdent], toks)
      else
        .ok (.compound .tkConst t.range
              [.num ((doubleValue t.text).scaleBy mult), .strlit typeIdent], toks)

/-- `Parser::parseIdent`. -/
def parseIdent (toks : List Token) : PRes Tree :=
  match expectTok .tkIdent toks with
  | .error e => .error e
  | .ok (t, toks) => .ok (mkIdent t.range t.text, toks)

/-- `Parser::parseOptionalReduction`: a compound-assignment token becomes a
reduction tree of its operator character (`text()[0]`), otherwise an `'='`
token is required. -/
def parseOptionalReduction (toks : List Token) : PRes Tree :=
  let r := (curTok toks).range
  match (curTok toks).kind with
  | .plusEq => .ok (.compound .plus r [], nextToks toks)
  | .minusEq => .ok (.compound .minus r [], nextToks toks)
  | .timesEq => .ok (.compound .star r [], nextToks toks)
  | .divEq => .ok (.compound .slash r [], nextToks toks)
  | _ =>
    match expectTok .eqTok toks with
    | .error e => .error e
    | .ok (_, toks) => .ok (.compound .eqTok r [], toks)

/-- `Parser::expectEndOfLine`: a dedent already implies a newline and is not
consumed; otherwise an explicit newline token is required and consumed. -/
def expectEndOfLine (toks : List Token) : PRes Unit :=
  if (curTok toks).kind ≠ .tkDedent then
    match expectTok .tkNewline toks with
    | .error e => .error e
    | .ok (_, toks) => .ok ((), toks)
  else
    .ok ((), toks)

/-- `Parser::isEndOfLine`. -/
def isEndOfLine (toks : List Token) : Bool :=
  (curTok toks).kind = .tkNewline || (curTok toks).kind = .tkDedent

/-- `Parser::parseType`: currently always an (empty) `TensorType`. -/
def parseType (toks : List Token) : PRes Tree :=
  .ok (.compound .tkTensorType 0 [], toks)

/-- `Parser::parseScalarType`. -/
def parseScalarType (toks : List Token) : PRes Tree :=
  match (curTok toks).kind with
  | .tkInt | .tkFloat | .tkLong | .tkDouble =>
    let t := curTok toks
    .ok (.compound t.kind t.range [], nextToks toks)
  | _ => parseIdent toks

/-- Which element parser a `parseList` call site uses (standing in for the
C++ member-function pointer, so that the mutual recursion stays first-order). -/
inductive ElemKind where
  | exprElem | identElem | constElem | paramElem
deriving DecidableEq, Repr

/-- Fuel exhaustion: an artifact of the embedding's recursion-depth fuel; no
theorem relies on it, and every claim is evaluated with ample fuel. -/
def fuelErr : ErrorReport := ⟨0, "recursion fuel exhausted (model artifact)"⟩

mutual
/-- `Parser::parseExp(precedence)`: unary prefix or base expression, then the
precedence-climbing loop. -/
def parseExp (fuel : Nat) (precedence : Nat) (toks : List Token) : PRes Tree :=
  match fuel with
  | 0 => .error fuelErr
  | fuel + 1 =>
    match isUnary (curTok toks).kind with
    | some unaryPrec =>
      let kind := (curTok toks).kind
      let pos := (curTok toks).range
      match parseExp fuel unaryPrec (nextToks toks) with
      | .error e => .error e
      | .ok (sub, toks) => parseExpLoop fuel precedence (.compound kind pos [sub]) toks
    | none =>
      match parseBaseExp fuel toks with
      | .error e => .error e
      | .ok (pfx, toks) => parseExpLoop fuel precedence pfx toks

termination_by structural fuel

/-- The `while (shared.isBinary(...))` loop of `parseExp`: stop on a
non-binary token or one whose precedence is not strictly greater than the
bound; the ternary `if` is the special-cased binary production. -/
def parseExpLoop (fuel : Nat) (precedence : Nat) (pfx : Tree) (toks : List Token) :
    PRes Tree :=
  match fuel with
  | 0 => .error fuelErr
  | fuel + 1 =>
    match isBinary (curTok toks).kind with
    | none => .ok (pfx, toks)
    | some binaryPrec =>
      if binaryPrec ≤ precedence then .ok (pfx, toks)
      else
        let kind := (curTok toks).kind
        let pos := (curTok toks).range
        let toks := nextToks toks
        let binaryPrec := if isRightAssociative kind then binaryPrec - 1 else binaryPrec
        if kind = .tkIf then
          match parseTrinary fuel pfx pos binaryPrec toks with
          | .error e => .error e
          | .ok (pfx, toks) => parseExpLoop fuel precedence pfx toks
        else
          match parseExp fuel binaryPrec toks with
          | .error e => .error e
          | .ok (rhs, toks) =>
            parseExpLoop fuel precedence (.compound kind pos [pfx, rhs]) toks

termination_by structural fuel

/-- `Parser::parseTrinary(true_branch, range, binary_prec)`: parses
`cond else false_branch` and builds `TK_IF_EXPR{cond, true, false}`. -/
def parseTrinary (fuel : Nat) (trueBranch : Tree) (range : Nat) (binaryPrec : Nat)
    (toks : List Token) : PRes Tree :=
  match fuel with
  | 0 => .error fuelErr
  | fuel + 1 =>
    match parseExp fuel 0 toks with
    | .error e => .error e
    | .ok (cond, toks) =>
      match expectTok .tkElse toks with
      | .error e => .error e
      | .ok (_, toks) =>
        match parseExp fuel binaryPrec toks with
        | .error e => .error e
        | .ok (falseBranch, toks) =>
          .ok (.compound .tkIfExpr range [cond, trueBranch, falseBranch], toks)

termination_by structural fuel

/-- `Parser::parseBaseExp`: literals, parenthesised expressions, scalar-type
casts, or a variable; then the postfix chain. -/
def parseBaseExp (fuel : Nat) (toks : List Token) : PRes Tree :=
  match fuel with
  | 0 => .error fuelErr
  | fuel + 1 =>
    match (curTok toks).kind with
    | .tkNumber | .tkTrue | .tkFalse =>
      match parseConst toks with
      | .error e => .error e
      | .ok (pfx, toks) => parsePostfix fuel pfx toks
    | .lparen =>
      match parseExp fuel 0 (nextToks toks) with
      | .error e => .error e
      | .ok (pfx, toks) =>
        match expectTok .rparen toks with
        | .error e => .error e
        | .ok (_, toks) => parsePostfix fuel pfx toks
    | .tkFloat | .tkInt | .tkLong =>
      let r := (curTok toks).range
      let typeTree : Tree := .compound (curTok toks).kind r []
      match expectTok .lparen (nextToks toks) with
      | .error e => .error e
      | .ok (_, toks) =>
        match parseExp fuel 0 toks with
        | .error e => .error e
        | .ok (exp, toks) =>
          match expectTok .rparen toks with
          | .error e => .error e
          | .ok (_, toks) =>
            parsePostfix fuel (.compound .tkCast r [typeTree, exp]) toks
    | _ =>
      match parseIdent toks with
      | .error e => .error e
      | .ok (name, toks) =>
        parsePostfix fuel (.compound .tkVar name.range [name]) toks

termination_by structural fuel

/-- The postfix `while (true)` chain of `parseBaseExp`: attribute selection,
application, and subscripts attach left-to-right. -/
def parsePostfix (fuel : Nat) (pfx : Tree) (toks : List Token) : PRes Tree :=
  match fuel with
  | 0 => .error fuelErr
  | fuel + 1 =>
    let (tookDot, toks') := nextIf .dot toks
    if tookDot then
      match parseIdent toks' with
      | .error e => .error e
      | .ok (name, toks') =>
        parsePostfix fuel (.compound .tkSelect name.range [pfx, name]) toks'
    else if (curTok toks).kind = .lparen then
      match createApply fuel pfx toks with
      | .error e => .error e
      | .ok (pfx, toks) => parsePostfix fuel pfx toks
    else if (curTok toks).kind = .lbracket then
      match parseSliceOrGather fuel pfx toks with
      | .error e => .error e
      | .ok (pfx, toks) => parsePostfix fuel pfx toks
    else
      .ok (pfx, toks)

termination_by structural fuel

/-- `Parser::createApply`. -/
def createApply (fuel : Nat) (expr : Tree) (toks : List Token) : PRes Tree :=
  match fuel with
  | 0 => .error fuelErr
  | fuel + 1 =>
    let range := (curTok toks).range
    match parseOperatorArguments fuel toks with
    | .error e => .error e
    | .ok ((inputs, attributes), toks) =>
      .ok (.compound .tkApply range
            [expr, .compound .tkList range inputs, .compound .tkList range attributes],
          toks)

termination_by structural fuel

/-- `Parser::parseOperatorArguments`: `(`, then a comma-separated mix of
positional expressions and `name=const` attributes, then `)`. -/
def parseOperatorArguments (fuel : Nat) (toks : List Token) :
    PRes (List Tree × List Tree) :=
  match fuel with
  | 0 => .error fuelErr
  | fuel + 1 =>
    match expectTok .lparen toks with
    | .error e => .error e
    | .ok (_, toks) =>
      if (curTok toks).kind ≠ .rparen then
        match parseOpArgsLoop fuel [] [] toks with
        | .error e => .error e
        | .ok ((inputs, attributes), toks) =>
          match expectTok .rparen toks with
          | .error e => .error e
          | .ok (_, toks) => .ok ((inputs, attributes), toks)
      else
        match expectTok .rparen toks with
        | .error e => .error e
        | .ok (_, toks) => .ok (([], []), toks)

termination_by structural fuel

/-- The do/while body of `parseOperatorArguments`. -/
def parseOpArgsLoop (fuel : Nat) (inputs attributes : List Tree)
    (toks : List Token) : PRes (List Tree × List Tree) :=
  match fuel with
  | 0 => .error fuelErr
  | fuel + 1 =>
    if (curTok toks).kind = .tkIdent ∧ (lookaheadTok toks).kind = .eqTok then
      match parseIdent toks with
      | .error e => .error e
      | .ok (ident, toks) =>
        match expectTok .eqTok toks with
        | .error e => .error e
        | .ok (_, toks) =>
          match parseAttributeValue fuel toks with
          | .error e => .error e
          | .ok (v, toks) =>
            let attributes := attributes ++ [.compound .tkAttribute ident.range [ident, v]]
            let (tookComma, toks) := nextIf .comma toks
            if tookComma then parseOpArgsLoop fuel inputs attributes toks
            else .ok ((inputs, attributes), toks)
    else
      match parseExp fuel 0 toks with
      | .error e => .error e
      | .ok (inp, toks) =>
        let inputs := inputs ++ [inp]
        let (tookComma, toks) := nextIf .comma toks
        if tookComma then parseOpArgsLoop fuel inputs attributes toks
        else .ok ((inputs, attributes), toks)

termination_by structural fuel

/-- `Parser::parseAttributeValue`: a `[c1, c2, ...]` constant-list literal,
or a single constant. -/
def parseAttributeValue (fuel : Nat) (toks : List Token) : PRes Tree :=
  match fuel with
  | 0 => .error fuelErr
  | fuel + 1 =>
    match (curTok toks).kind with
    | .lbracket =>
      match parseListFn fuel (some .lbracket) .comma (some .rbracket) .constElem toks with
      | .error e => .error e
      | .ok (list, toks) => .ok (.compound .tkListLiteral list.range [list], toks)
    | _ => parseConst toks

termination_by structural fuel

/-- `Parser::parseSliceOrGather`: `[a]` is a gather; `[a:]`, `[:a]`, `[a:b]`
and `[:]` are slices (disambiguated only after seeing whether `:` follows). -/
def parseSliceOrGather (fuel : Nat) (value : Tree) (toks : List Token) : PRes Tree :=
  match fuel with
  | 0 => .error fuelErr
  | fuel + 1 =>
    let range := (curTok toks).range
    match expectTok .lbracket toks with
    | .error e => .error e
    | .ok (_, toks) =>
      if (curTok toks).kind ≠ .colon then
        match parseExp fuel 0 toks with
        | .error e => .error e
        | .ok (first, toks) =>
          let (tookBracket, toks) := nextIf .rbracket toks
          if tookBracket then
            .ok (.compound .tkGather range [value, first], toks)
          else
            parseSliceRest fuel value range (.compound .tkOption range [first]) toks
      else
        parseSliceRest fuel value range (.compound .tkOption range []) toks

termination_by structural fuel

/-- The tail of `parseSliceOrGather` after `first` is known to be a slice
start: `: [stop] ]`. -/
def parseSliceRest (fuel : Nat) (value : Tree) (range : Nat) (first : Tree)
    (toks : List Token) : PRes Tree :=
  match fuel with
  | 0 => .error fuelErr
  | fuel + 1 =>
    match expectTok .colon toks with
    | .error e => .error e
    | .ok (_, toks) =>
      if (curTok toks).kind ≠ .rbracket then
        match parseExp fuel 0 toks with
        | .error e => .error e
        | .ok (second, toks) =>
          match expectTok .rbracket toks with
          | .error e => .error e
          | .ok (_, toks) =>
            .ok (.compound .tkSlice range
                  [value, first, .compound .tkOption range [second]], toks)
      else
        match expectTok .rbracket toks with
        | .error e => .error e
        | .ok (_, toks) =>
          .ok (.compound .tkSlice range
                [value, first, .compound .tkOption range []], toks)

termination_by structural fuel

/-- Dispatch for `parseList`'s element parser (the C++ member pointer). -/
def parseElemDispatch (fuel : Nat) (which : ElemKind) (toks : List Token) : PRes Tree :=
  match fuel with
  | 0 => .error fuelErr
  | fuel + 1 =>
    match which with
    | .exprElem => parseExp fuel 0 toks
    | .identElem => parseIdent toks
    | .constElem => parseConst toks
    | .paramElem => parseParam fuel toks

termination_by structural fuel

/-- `Parser::parseList(begin, sep, end, parse)`: optional begin token, a
possibly empty separated element list (empty only when an end token is given
and immediately present), optional end token. -/
def parseListFn (fuel : Nat) (beginK : Option TokenKind) (sep : TokenKind)
    (endK : Option TokenKind) (which : ElemKind) (toks : List Token) : PRes Tree :=
  match fuel with
  | 0 => .error fuelErr
  | fuel + 1 =>
    let r := (curTok toks).range
    let beginRes : PRes Unit :=
      match beginK with
      | some b =>
        match expectTok b toks with
        | .error e => .error e
        | .ok (_, toks) => .ok ((), toks)
      | none => .ok ((), toks)
    match beginRes with
    | .error e => .error e
    | .ok (_, toks) =>
      let parseAny : Bool :=
        match endK with
        | some e => (curTok toks).kind ≠ e
        | none => true
      match (if parseAny then parseListLoop fuel sep which [] toks
             else .ok ([], toks) : PRes (List Tree)) with
      | .error e => .error e
      | .ok (elems, toks) =>
        match endK with
        | some e =>
          match expectTok e toks with
          | .error e' => .error e'
          | .ok (_, toks) => .ok (.compound .tkList r elems, toks)
        | none => .ok (.compound .tkList r elems, toks)

termination_by structural fuel

/-- The do/while element loop of `parseList`. -/
def parseListLoop (fuel : Nat) (sep : TokenKind) (which : ElemKind)
    (acc : List Tree) (toks : List Token) : PRes (List Tree) :=
  match fuel with
  | 0 => .error fuelErr
  | fuel + 1 =>
    match parseElemDispatch fuel which toks with
    | .error e => .error e
    | .ok (el, toks) =>
      let (tookSep, toks) := nextIf sep toks
      if tookSep then parseListLoop fuel sep which (acc ++ [el]) toks
      else .ok (acc ++ [el], toks)

termination_by structural fuel

/-- `Parser::parseStmt`. -/
def parseStmt (fuel : Nat) (toks : List Token) : PRes Tree :=
  match fuel with
  | 0 => .error fuelErr
  | fuel + 1 =>
    match (curTok toks).kind with
    | .tkIf => parseIf fuel toks
    | .tkWhile => parseWhile fuel toks
    | .tkGlobal =>
      let range := (curTok toks).range
      match parseListFn fuel none .comma none .identElem (nextToks toks) with
      | .error e => .error e
      | .ok (idents, toks) => .ok (.compound .tkGlobal range [idents], toks)
    | .tkReturn =>
      let range := (curTok toks).range
      match parseListFn fuel none .comma none .exprElem (nextToks toks) with
      | .error e => .error e
      | .ok (values, toks) => .ok (.compound .tkReturn range [values], toks)
    | _ =>
      match parseExp fuel 0 toks with
      | .error e => .error e
      | .ok (r, toks) =>
        if r.kindOf = .tkVar ∧ ¬ isEndOfLine toks then
          parseAssign fuel (r.treeD 0) toks
        else
          match expectEndOfLine toks with
          | .error e => .error e
          | .ok (_, toks) => .ok (.compound .tkExprStmt r.range [r], toks)

termination_by structural fuel

/-- `Parser::parseAssign` (`first` is the already-parsed leading identifier). -/
def parseAssign (fuel : Nat) (first : Tree) (toks : List Token) : PRes Tree :=
  match fuel with
  | 0 => .error fuelErr
  | fuel + 1 =>
    match parseIdentsRest fuel [first] toks with
    | .error e => .error e
    | .ok (idents, toks) =>
      let list : Tree := .compound .tkList ((idents.getLastD (.strlit "")).range) idents
      match parseOptionalReduction toks with
      | .error e => .error e
      | .ok (red, toks) =>
        match parseExp fuel 0 toks with
        | .error e => .error e
        | .ok (rhs, toks) =>
          match expectEndOfLine toks with
          | .error e => .error e
          | .ok (_, toks) => .ok (.compound .tkAssign list.range [list, red, rhs], toks)

/-- The `while (L.nextIf(','))` loop of `parseOneOrMoreIdents`. -/
def parseIdentsRest (fuel : Nat) (acc : List Tree) (toks : List Token) :
    PRes (List Tree) :=
  match fuel with
  | 0 => .error fuelErr
  | fuel + 1 =>
    let (tookComma, toks) := nextIf .comma toks
    if tookComma then
      match parseIdent toks with
      | .error e => .error e
      | .ok (ident, toks) => parseIdentsRest fuel (acc ++ [ident]) toks
    else
      .ok (acc, toks)

termination_by structural fuel

/-- `Parser::parseIf` (optional `else`). -/
def parseIf (fuel : Nat) (toks : List Token) : PRes Tree :=
  match fuel with
  | 0 => .error fuelErr
  | fuel + 1 =>
    let r := (curTok toks).range
    match expectTok .tkIf toks with
    | .error e => .error e
    | .ok (_, toks) =>
      match parseExp fuel 0 toks with
      | .error e => .error e
      | .ok (cond, toks) =>
        match expectTok .colon toks with
        | .error e => .error e
        | .ok (_, toks) =>
          match parseStatements fuel toks with
          | .error e => .error e
          | .ok (trueBranch, toks) =>
            let falseBranch : Tree := .compound .tkList (curTok toks).range []
            let (tookElse, toks) := nextIf .tkElse toks
            if tookElse then
              match expectTok .colon toks with
              | .error e => .error e
              | .ok (_, toks) =>
                match parseStatements fuel toks with
                | .error e => .error e
                | .ok (falseBranch, toks) =>
                  .ok (.compound .tkIf r [cond, trueBranch, falseBranch], toks)
            else
              .ok (.compound .tkIf r [cond, trueBranch, falseBranch], toks)

termination_by structural fuel

/-- `Parser::parseWhile`. -/
def parseWhile (fuel : Nat) (toks : List Token) : PRes Tree :=
  match fuel with
  | 0 => .error fuelErr
  | fuel + 1 =>
    let r := (curTok toks).range
    match expectTok .tkWhile toks with
    | .error e => .error e
    | .ok (_, toks) =>
      match parseExp fuel 0 toks with
      | .error e => .error e
      | .ok (cond, toks) =>
        match expectTok .colon toks with
        | .error e => .error e
        | .ok (_, toks) =>
          match parseStatements fuel toks with
          | .error e => .error e
          | .ok (body, toks) => .ok (.compound .tkWhile r [cond, body], toks)

termination_by structural fuel

/-- `Parser::parseStatements`: an indent, one or more statements, a dedent. -/
def parseStatements (fuel : Nat) (toks : List Token) : PRes Tree :=
  match fuel with
  | 0 => .error fuelErr
  | fuel + 1 =>
    let r := (curTok toks).range
    match expectTok .tkIndent toks with
    | .error e => .error e
    | .ok (_, toks) =>
      match parseStmtsLoop fuel [] toks with
      | .error e => .error e
      | .ok (stmts, toks) => .ok (.compound .tkList r stmts, toks)

termination_by structural fuel

/-- The statement loop of `parseStatements` (breaks on a consumed dedent). -/
def parseStmtsLoop (fuel : Nat) (acc : List Tree) (toks : List Token) :
    PRes (List Tree) :=
  match fuel with
  | 0 => .error fuelErr
  | fuel + 1 =>
    match parseStmt fuel toks with
    | .error e => .error e
    | .ok (stmt, toks) =>
      let (tookDedent, toks) := nextIf .tkDedent toks
      if tookDedent then .ok (acc ++ [stmt], toks)
      else parseStmtsLoop fuel (acc ++ [stmt]) toks

termination_by structural fuel

/-- `Parser::parseParam`: an (always-`TensorType`) type then an identifier;
the untyped-parameter fallback mirrors the source's check. -/
def parseParam (fuel : Nat) (toks : List Token) : PRes Tree :=
  match fuel with
  | 0 => .error fuelErr
  | _fuel + 1 =>
    match parseType toks with
    | .error e => .error e
    | .ok (typ, toks) =>
      if (curTok toks).kind ≠ .tkIdent ∧ (typ.treeD 0).kindOf = .tkIdent then
        .ok (.compound .tkParam typ.range
              [typ.treeD 0, .compound .tkInferred typ.range []], toks)
      else
        match parseIdent toks with
        | .error e => .error e
        | .ok (ident, toks) =>
          .ok (.compound .tkParam typ.range [ident, typ], toks)

/-- `Parser::parseFunction`: `def name(params): statements`. -/
def parseFunction (fuel : Nat) (toks : List Token) : PRes Tree :=
  match fuel with
  | 0 => .error fuelErr
  | fuel + 1 =>
    match expectTok .tkDef toks with
    | .error e => .error e
    | .ok (_, toks) =>
      match parseIdent toks with
      | .error e => .error e
      | .ok (name, toks) =>
        match parseListFn fuel (some .lparen) .comma (some .rparen) .paramElem toks with
        | .error e => .error e
        | .ok (paramlist, toks) =>
          match expectTok .colon toks with
          | .error e => .error e
          | .ok (_, toks) =>
            match parseStatements fuel toks with
            | .error e => .error e
            | .ok (stmts, toks) =>
              .ok (.compound .tkDef name.range [name, paramlist, stmts], toks)
end

/-- `Parser::parseOptionalIdentList`. -/
def parseOptionalIdentList (fuel : Nat) (toks : List Token) : PRes Tree :=
  if (curTok toks).kind = .lparen then
    parseListFn fuel (some .lparen) .comma (some .rparen) .identElem toks
  else
    .ok (.compound .tkList (curTok toks).range [], toks)

/-! ### `SugaredValue` (`torch/csrc/jit/script/compiler.h`)

Capability-based dispatch: the abstract base class fails every capability
with a diagnostic naming the concrete `kind()`; `SimpleValue` overrides
`kind` (to `"value"`), `asValue` (returning its wrapped `Value`) and `attr`
(whose body lives in `compiler.cpp`, not among the sampled sources, so no
total `attr` dispatcher is modelled). -/

/-- `script::Method` (from `module.h`, not among the sampled sources): the
method being compiled; none of the behaviours modelled here inspect it. -/
structure Method where
  methodId : Nat
deriving DecidableEq, Repr

/-- The concrete `SugaredValue` variants visible in the sampled sources:
`SimpleValue` wrapping a plain IR `Value` (by its id), and any other concrete
subclass that keeps the base-class behaviours, known by its `kind()` string. -/
inductive SugaredValue where
  | simple (value : Nat)
  | host (kindName : String)
deriving DecidableEq, Repr

/-- Virtual `kind()`: `SimpleValue::kind` returns `"value"`. -/
def SugaredValue.kind : SugaredValue → String
  | .simple _ => "value"
  | .host k => k

/-- The base-class default `SugaredValue::asValue`: using an entity of the
given concrete `kind()` as a value is an unsupported capability. -/
def sugaredBaseAsValue (kind : String) (loc : Nat) (_m : Method) :
    Except ErrorReport Nat :=
  .error ⟨loc, kind ++ " cannot be used as a value"⟩

/-- The base-class default `SugaredValue::attr`. -/
def sugaredBaseAttr (kind : String) (loc : Nat) (_m : Method)
    (_field : String) : Except ErrorReport SugaredValue :=
  .error ⟨loc, "attribute lookup is not defined on " ++ kind⟩

/-- The base-class default `SugaredValue::call`. -/
def sugaredBaseCall (kind : String) (loc : Nat) (_m : Method)
    (_inputs : List Nat) (_attributes : List Tree) (_nOutputs : Nat) :
    Except ErrorReport (List Nat) :=
  .error ⟨loc, "cannot call a " ++ kind⟩

/-- Virtual dispatch of `asValue`: `SimpleValue` overrides it to return its
wrapped plain `Value` unchanged; every other variant keeps the base
behaviour. -/
def SugaredValue.asValue : SugaredValue → Nat → Method → Except ErrorReport Nat
  | .simple v, _loc, _m => .ok v
  | .host k, loc, m => sugaredBaseAsValue k loc m

/-- Virtual dispatch of `call`: no variant in the sampled sources overrides
the base behaviour. -/
def SugaredValue.call (sv : SugaredValue) (loc : Nat) (m : Method)
    (inputs : List Nat) (attributes : List Tree) (nOutputs : Nat) :
    Except ErrorReport (List Nat) :=
  sugaredBaseCall sv.kind loc m inputs attributes nOutputs

end Script

/-! ## Claims -/

set_option maxRecDepth 10000

section OnnxLemmas

open Onnx

theorem validateNodeList_ok_mem (g : EGraph) :
    ∀ (ns : List ENode), validateNodeList g ns = .ok () →
      ∀ n ∈ ns, validateNode g n = .ok () := by
  intro ns
  induction ns with
  | nil => intro _ n hn; cases hn
  | cons m rest ih =>
    intro h n hn
    rw [validateNodeList] at h
    cases hv : validateNode g m with
    | error e => rw [hv] at h; cases h
    | ok u =>
      cases u
      rw [hv] at h
      rcases List.mem_cons.mp hn with rfl | hn'
      · exact hv
      · exact ih h n hn'

theorem validateNodeList_error_mem (g : EGraph) :
    ∀ (ns : List ENode) (e : String), validateNodeList g ns = .error e →
      ∃ n ∈ ns, validateNode g n = .error e := by
  intro ns
  induction ns with
  | nil => intro e h; cases h
  | cons m rest ih =>
    intro e h
    rw [validateNodeList] at h
    cases hv : validateNode g m with
    | error e' =>
      rw [hv] at h
      cases h
      exact ⟨m, List.mem_cons_self m rest, hv⟩
    | ok u =>
      cases u
      rw [hv] at h
      obtain ⟨n, hn, he⟩ := ih e h
      exact ⟨n, List.mem_cons_of_mem m hn, he⟩

theorem validateNode_error_of_expand (g : EGraph) (n : ENode)
    (h : n.kind = kExpand) : ∃ e, validateNode g n = .error e := by
  cases n with
  | mk variant kind ins outs attrs loc =>
    simp only [ENode.kind] at h
    subst h
    cases variant with
    | baseOp => exact ⟨_, rfl⟩
    | cppOp op => exact ⟨_, rfl⟩
    | pythonOp op => exact ⟨_, rfl⟩

theorem validateNode_error_of_nonupper (g : EGraph) (n : ENode)
    (ch : Char) (chs : List Char) (hl : n.kind.toList = ch :: chs)
    (hup : isUpperAscii ch = false) : ∃ e, validateNode g n = .error e := by
  cases n with
  | mk variant kind ins outs attrs loc =>
    simp only [ENode.kind] at hl
    cases variant with
    | cppOp op => exact ⟨_, rfl⟩
    | pythonOp op => exact ⟨_, rfl⟩
    | baseOp =>
      by_cases hk : kind = kExpand
      · subst hk; exact ⟨_, rfl⟩
      · have heq : validateNode g (.mk .baseOp kind ins outs attrs loc) =
            .error (failExportMsg g ("Couldn't export operator " ++ kind
              ++ " Defined at:\n"
              ++ getNodeStackTraceString (.mk .baseOp kind ins outs attrs loc))) := by
          simp only [validateNode, ENode.variant, ENode.kind]
          rw [if_neg hk, hl]
          simp [hup]
        exact ⟨_, heq⟩

theorem validateNode_baseOp_nonupper_msg (g : EGraph) (n : ENode)
    (ch : Char) (chs : List Char) (hv : n.variant = .baseOp)
    (hl : n.kind.toList = ch :: chs) (hup : isUpperAscii ch = false) :
    validateNode g n =
      .error (failExportMsg g ("Couldn't export operator " ++ n.kind
        ++ " Defined at:\n" ++ getNodeStackTraceString n)) := by
  have hk : n.kind ≠ kExpand := by
    intro hk
    rw [hk] at hl
    have hE : kExpand.toList = 'E' :: ['x', 'p', 'a', 'n', 'd'] := rfl
    rw [hE] at hl
    injection hl with h1 _
    subst h1
    cases hup
  cases n with
  | mk variant kind ins outs attrs loc =>
    simp only [ENode.variant] at hv
    subst hv
    simp only [ENode.kind] at hk hl ⊢
    simp only [validateNode, ENode.variant, ENode.kind]
    rw [if_neg hk, hl]
    simp [hup]

theorem encodeValueInfo_name (v : EValue) (p : ValueInfoProto)
    (h : encodeValueInfo v = .ok p) : p.name = v.uniqueName := by
  unfold encodeValueInfo at h
  cases hv : v.vtype with
  | dynamic => rw [hv] at h; cases h
  | tensorType sc sizes =>
    rw [hv] at h
    dsimp only at h
    cases hs : scalarTypeToOnnx sc with
    | error e => rw [hs] at h; dsimp only at h; cases h
    | ok dt =>
      rw [hs] at h
      dsimp only at h
      cases h
      rfl

theorem encodeValueInfos_spec :
    ∀ (vs : List EValue) (ps : List ValueInfoProto),
      encodeValueInfos vs = .ok ps →
      ps.length = vs.length ∧
      ∀ j v, vs.get? j = some v →
        ∃ p, ps.get? j = some p ∧ p.name = v.uniqueName := by
  intro vs
  induction vs with
  | nil =>
    intro ps h
    rw [encodeValueInfos] at h
    cases h
    exact ⟨rfl, by intro j v hv; cases hv⟩
  | cons v rest ih =>
    intro ps h
    rw [encodeValueInfos] at h
    cases h1 : encodeValueInfo v with
    | error e => rw [h1] at h; cases h
    | ok p =>
      rw [h1] at h
      cases h2 : encodeValueInfos rest with
      | error e => rw [h2] at h; cases h
      | ok ps' =>
        rw [h2] at h
        cases h
        obtain ⟨hlen, hget⟩ := ih ps' h2
        refine ⟨by simp [hlen], ?_⟩
        intro j w hw
        cases j with
        | zero =>
          cases hw
          exact ⟨p, rfl, encodeValueInfo_name v p h1⟩
        | succ j => exact hget j w hw

theorem encodeInitializers_spec :
    ∀ (inits : List Tensor) (inputs : List ValueInfoProto) (c : Int)
      (tps : List TensorProto),
      encodeInitializers inputs c inits = .ok tps →
      tps.length = inits.length ∧
      ∀ i, i < inits.length →
        ∃ tp, tps.get? i = some tp ∧ tp.name = getInputName inputs (c + i) := by
  intro inits
  induction inits with
  | nil =>
    intro inputs c tps h
    rw [encodeInitializers] at h
    cases h
    exact ⟨rfl, by intro i hi; cases hi⟩
  | cons tensor rest ih =>
    intro inputs c tps h
    rw [encodeInitializers] at h
    cases h1 : encodeTensor tensor with
    | error e => rw [h1] at h; cases h
    | ok p =>
      rw [h1] at h
      cases h2 : encodeInitializers inputs (c + 1) rest with
      | error e => rw [h2] at h; cases h
      | ok ps =>
        rw [h2] at h
        cases h
        obtain ⟨hlen, hget⟩ := ih inputs (c + 1) ps h2
        refine ⟨by simp [hlen], ?_⟩
        intro i hi
        cases i with
        | zero => exact ⟨_, rfl, by simp⟩
        | succ i =>
          have hi' : i < rest.length := by
            simp only [List.length_cons] at hi
            omega
          obtain ⟨tp, htp, hname⟩ := hget i hi'
          refine ⟨tp, htp, ?_⟩
          rw [hname]
          congr 1
          push_cast
          ring

theorem encodeNode_spec (n : ENode) (np : NodeProto)
    (h : encodeNode n = .ok np) :
    np.opType = n.kind ∧
    np.inputs = n.inputs.map renderInputRef ∧
    np.outputs = n.outputs.map EValue.uniqueName ∧
    np.docString = n.srcLoc := by
  cases n with
  | mk variant kind ins outs attrs loc =>
    rw [encodeNode] at h
    cases h1 : encodeAttrList attrs with
    | error e => rw [h1] at h; cases h
    | ok ps =>
      rw [h1] at h
      cases h
      exact ⟨rfl, rfl, rfl, rfl⟩

theorem encodeNodeList_spec :
    ∀ (ns : List ENode) (nps : List NodeProto),
      encodeNodeList ns = .ok nps →
      nps.length = (ns.filter (fun n => n.kind ≠ kUndefined)).length ∧
      ∀ i n, (ns.filter (fun n => n.kind ≠ kUndefined)).get? i = some n →
        ∃ np, nps.get? i = some np ∧
          np.opType = n.kind ∧
          np.inputs = n.inputs.map renderInputRef ∧
          np.outputs = n.outputs.map EValue.uniqueName ∧
          np.docString = n.srcLoc := by
  intro ns
  induction ns with
  | nil =>
    intro nps h
    rw [encodeNodeList] at h
    cases h
    exact ⟨rfl, by intro i n hn; cases hn⟩
  | cons n rest ih =>
    intro nps h
    rw [encodeNodeList] at h
    by_cases hk : n.kind = kUndefined
    · rw [if_pos hk] at h
      obtain ⟨hlen, hget⟩ := ih nps h
      have hfilter : (n :: rest).filter (fun m => m.kind ≠ kUndefined) =
          rest.filter (fun m => m.kind ≠ kUndefined) := by
        simp [List.filter_cons, hk]
      rw [hfilter]
      exact ⟨hlen, hget⟩
    · rw [if_neg hk] at h
      cases h1 : encodeNode n with
      | error e => rw [h1] at h; cases h
      | ok np =>
        rw [h1] at h
        cases h2 : encodeNodeList rest with
        | error e => rw [h2] at h; cases h
        | ok nps' =>
          rw [h2] at h
          cases h
          obtain ⟨hlen, hget⟩ := ih nps' h2
          have hfilter : (n :: rest).filter (fun m => m.kind ≠ kUndefined) =
              n :: rest.filter (fun m => m.kind ≠ kUndefined) := by
            simp [List.filter_cons, hk]
          rw [hfilter]
          refine ⟨by simp [hlen], ?_⟩
          intro i m hm
          cases i with
          | zero =>
            cases hm
            exact ⟨np, rfl, encodeNode_spec _ _ h1⟩
          | succ i => exact hget i m hm

/-- Success of `encodeGraph` decomposes into successes of its four phases. -/
theorem encodeGraph_ok_parts (g : EGraph) (inits : List Tensor) (p : GraphProto)
    (h : encodeGraph g inits = .ok p) :
    ∃ inputProtos outputProtos nodeProtos initProtos,
      encodeValueInfos g.inputs = .ok inputProtos ∧
      encodeValueInfos g.outputs = .ok outputProtos ∧
      encodeNodeList g.nodes = .ok nodeProtos ∧
      encodeInitializers inputProtos
        ((g.inputs.length : Int) - (inits.length : Int)) inits = .ok initProtos ∧
      p = .mk "torch-jit-export" inputProtos outputProtos nodeProtos initProtos := by
  cases g with
  | mk ins outs ns =>
    rw [encodeGraph] at h
    cases h1 : encodeValueInfos ins with
    | error e => rw [h1] at h; cases h
    | ok inputProtos =>
      rw [h1] at h
      dsimp only at h
      cases h2 : encodeValueInfos outs with
      | error e => rw [h2] at h; cases h
      | ok outputProtos =>
        rw [h2] at h
        dsimp only at h
        cases h3 : encodeNodeList ns with
        | error e => rw [h3] at h; cases h
        | ok nodeProtos =>
          rw [h3] at h
          dsimp only at h
          cases h4 : encodeInitializers inputProtos
              ((ins.length : Int) - (inits.length : Int)) inits with
          | error e => rw [h4] at h; cases h
          | ok initProtos =>
            rw [h4] at h
            dsimp only at h
            cases h
            exact ⟨inputProtos, outputProtos, nodeProtos, initProtos,
              h1, h2, h3, h4, rfl⟩

@[simp] theorem toList_append (a b : String) :
    (a ++ b).toList = a.toList ++ b.toList := by
  simp [String.toList, String.data_append]

/-- Every rejection message of `validateNode` for a node with a non-empty
kind carries both the graph's textual form and the node's rendered source
location. -/
theorem validateNode_error_parts (g : EGraph) (n : ENode) (e : String)
    (h : validateNode g n = .error e) (hne : n.kind ≠ "") :
    strInfix (graphToString g) e ∧ strInfix (getNodeStackTraceString n) e := by
  cases n with
  | mk variant kind ins outs attrs loc =>
    simp only [ENode.kind] at hne
    cases variant with
    | cppOp op =>
      simp only [validateNode, ENode.variant, ENode.kind, Except.error.injEq] at h
      subst h
      constructor
      · exact ⟨("ONNX export failed: " ++ ("Couldn't export C++ operator " ++ op
          ++ " Defined at:\n"
          ++ getNodeStackTraceString (.mk (.cppOp op) kind ins outs attrs loc))
          ++ "\n\nGraph we tried to export:\n").toList, [],
          by simp [failExportMsg]⟩
      · exact ⟨("ONNX export failed: " ++ ("Couldn't export C++ operator " ++ op
          ++ " Defined at:\n")).toList,
          ("\n\nGraph we tried to export:\n" ++ graphToString g).toList,
          by simp [failExportMsg]⟩
    | pythonOp op =>
      simp only [validateNode, ENode.variant, ENode.kind, Except.error.injEq] at h
      subst h
      constructor
      · exact ⟨("ONNX export failed: " ++ ("Couldn't export Python operator " ++ op
          ++ " Defined at:\n"
          ++ getNodeStackTraceString (.mk (.pythonOp op) kind ins outs attrs loc))
          ++ "\n\nGraph we tried to export:\n").toList, [],
          by simp [failExportMsg]⟩
      · exact ⟨("ONNX export failed: " ++ ("Couldn't export Python operator " ++ op
          ++ " Defined at:\n")).toList,
          ("\n\nGraph we tried to export:\n" ++ graphToString g).toList,
          by simp [failExportMsg]⟩
    | baseOp =>
      simp only [validateNode, ENode.variant, ENode.kind] at h
      by_cases hk : kind = kExpand
      · rw [if_pos hk] at h
        simp only [Except.error.injEq] at h
        subst h
        constructor
        · exact ⟨("ONNX export failed: "
            ++ ("Couldn't export operator expand; this usually means you used a form of broadcasting that ONNX does not currently support. Node defined at:\n"
              ++ getNodeStackTraceString (.mk .baseOp kind ins outs attrs loc))
            ++ "\n\nGraph we tried to export:\n").toList, [],
            by simp [failExportMsg]⟩
        · exact ⟨("ONNX export failed: "
            ++ "Couldn't export operator expand; this usually means you used a form of broadcasting that ONNX does not currently support. Node defined at:\n").toList,
            ("\n\nGraph we tried to export:\n" ++ graphToString g).toList,
            by simp [failExportMsg]⟩
      · rw [if_neg hk] at h
        cases hl : kind.toList with
        | nil =>
          exfalso
          apply hne
          cases kind with
          | mk data =>
            simp only [String.toList] at hl
            simp [hl]
        | cons ch chs =>
          rw [hl] at h
          dsimp only at h
          cases hup : isUpperAscii ch with
          | true => rw [hup] at h; simp at h
          | false =>
            rw [hup] at h
            simp only [Bool.not_false, if_pos, Except.error.injEq] at h
            subst h
            constructor
            · exact ⟨("ONNX export failed: " ++ ("Couldn't export operator "
                ++ kind ++ " Defined at:\n"
                ++ getNodeStackTraceString (.mk .baseOp kind ins outs attrs loc))
                ++ "\n\nGraph we tried to export:\n").toList, [],
                by simp [failExportMsg]⟩
            · exact ⟨("ONNX export failed: " ++ ("Couldn't export operator "
                ++ kind ++ " Defined at:\n")).toList,
                ("\n\nGraph we tried to export:\n" ++ graphToString g).toList,
                by simp [failExportMsg]⟩

end OnnxLemmas

section TracerLemmas

open Tracer

/-- The failure message of `getOutputTrace` for output index `i`. -/
def noDependenceMsg (i : Nat) : String :=
  "output " ++ toString i
    ++ " of traced region did not have observable data dependence with trace inputs; this probably indicates your program cannot be understood by the tracer."

theorem exitLoop_error_at :
    ∀ (outputs : List Variable) (st : TracingState) (i0 i : Nat)
      (id : Nat) (nm : String) (szs : List Int),
      outputs.get? i = some (.dvar id nm szs) →
      assocFind st.assoc id = none →
      (∀ j v, j < i → outputs.get? j = some v →
        v = Variable.undef ∨ ∃ vid, assocFind st.assoc v.vid = some vid) →
      exitLoop st outputs i0 = .error (noDependenceMsg (i0 + i)) := by
  intro outputs
  induction outputs with
  | nil => intro st i0 i id nm szs hget; cases hget
  | cons o rest ih =>
    intro st i0 i id nm szs hget hnone hpre
    cases i with
    | zero =>
      cases hget
      rw [exitLoop]
      simp only [getOutputTrace, hnone]
      rfl
    | succ i =>
      have harith : i0 + (i + 1) = (i0 + 1) + i := by omega
      rw [harith, exitLoop]
      cases o with
      | undef =>
        dsimp only [getOutputTrace, TGraph.appendUndefined, TGraph.registerOutput]
        exact ih _ (i0 + 1) i id nm szs hget hnone
          (fun j v hj hv => hpre (j + 1) v (by omega) hv)
      | dvar ovid onm oszs =>
        have h0 := hpre 0 (.dvar ovid onm oszs) (Nat.succ_pos i) rfl
        rcases h0 with h0 | ⟨vid, hvid⟩
        · cases h0
        · simp only [Variable.vid] at hvid
          simp only [getOutputTrace, hvid]
          exact ih _ (i0 + 1) i id nm szs hget hnone
            (fun j v hj hv => hpre (j + 1) v (by omega) hv)

theorem assocFind_cons (k v key : Nat) (l : List (Nat × Nat)) :
    assocFind ((k, v) :: l) key = if k = key then some v else assocFind l key := rfl

theorem assocSet_of_none (l : List (Nat × Nat)) (k v : Nat)
    (h : assocFind l k = none) : assocSet l k v = (k, v) :: l := by
  unfold assocSet
  rw [h]
  rfl

theorem assocFind_none_iff (l : List (Nat × Nat)) (k : Nat) :
    assocFind l k = none ↔ k ∉ l.map Prod.fst := by
  induction l with
  | nil => simp [assocFind]
  | cons p rest ih =>
    obtain ⟨pk, pv⟩ := p
    rw [assocFind_cons]
    by_cases hp : pk = k
    · subst hp
      simp
    · simp only [if_neg hp, List.map_cons, List.mem_cons, ih]
      constructor
      · intro h hmem
        rcases hmem with h1 | h2
        · exact hp h1.symm
        · exact h h2
      · intro h
        exact fun h2 => h (Or.inr h2)

theorem drop_eq_cons_of_get? {α : Type} :
    ∀ (l : List α) (j : Nat) (a : α), l.get? j = some a →
      l.drop j = a :: l.drop (j + 1) := by
  intro l
  induction l with
  | nil => intro j a h; cases h
  | cons x xs ih =>
    intro j a h
    cases j with
    | zero => cases h; rfl
    | succ j => exact ih j a h

/-- Step equation of `enterLoop` for a defined variable input already
associated with the state: the repeated-input `view` alias path. -/
theorem enterLoop_cons_var_dup (st : TracingState) (acc : List Variable)
    (fresh : Nat) (tin : TraceInput) (rest : List TraceInput)
    (hd : tin.var.defined = true) (hb : tin.buffer = none)
    (val : Nat) (ha : assocFind st.assoc tin.var.vid = some val) :
    enterLoop st acc fresh (tin :: rest) =
      enterLoop
        { st with
          graph := { st.graph with
            inputs := st.graph.inputs
              ++ [⟨st.graph.nextUnique, "", some tin.var.sizes⟩],
            nextUnique := st.graph.nextUnique + 1 },
          assoc := assocSet st.assoc fresh st.graph.nextUnique }
        (acc ++ [.dvar fresh "" tin.var.sizes]) (fresh + 1) rest := by
  rw [enterLoop]
  simp only [hd, hb]
  rw [ha]
  simp [Variable.view, Variable.vname, Variable.sizes, Variable.vid,
    TGraph.addInput]

/-- Step equation of `enterLoop` for a defined variable input not yet
associated with the state. -/
theorem enterLoop_cons_var_new (st : TracingState) (acc : List Variable)
    (fresh : Nat) (tin : TraceInput) (rest : List TraceInput)
    (hd : tin.var.defined = true) (hb : tin.buffer = none)
    (ha : assocFind st.assoc tin.var.vid = none) :
    enterLoop st acc fresh (tin :: rest) =
      enterLoop
        { st with
          graph := { st.graph with
            inputs := st.graph.inputs
              ++ [⟨st.graph.nextUnique, tin.var.vname, some tin.var.sizes⟩],
            nextUnique := st.graph.nextUnique + 1 },
          assoc := assocSet st.assoc tin.var.vid st.graph.nextUnique }
        (acc ++ [tin.var]) fresh rest := by
  rw [enterLoop]
  simp [hd, hb, ha, TGraph.addInput]

/-- Step equation of `enterLoop` for a buffer input. -/
theorem enterLoop_cons_buffer (st : TracingState) (acc : List Variable)
    (fresh : Nat) (tin : TraceInput) (rest : List TraceInput)
    (b : BufTensor) (hd : tin.var.defined = false) (hb : tin.buffer = some b) :
    enterLoop st acc fresh (tin :: rest) =
      enterLoop
        { st with
          graph := { st.graph with
            inputs := st.graph.inputs
              ++ [⟨st.graph.nextUnique, "", some b.bsizes⟩],
            nextUnique := st.graph.nextUnique + 1 },
          bufferMap := st.bufferMap ++ [(b.bid, st.graph.nextUnique)] }
        acc fresh rest := by
  rw [enterLoop]
  simp [hd, hb, TGraph.addInput]

/-- `enterLoop` distributes over list append. -/
theorem enterLoop_append (l1 : List TraceInput) :
    ∀ (l2 : List TraceInput) (st : TracingState) (acc : List Variable)
      (fresh : Nat),
      enterLoop st acc fresh (l1 ++ l2) =
        match enterLoop st acc fresh l1 with
        | .error e => .error e
        | .ok (st1, acc1, f1) => enterLoop st1 acc1 f1 l2 := by
  induction l1 with
  | nil => intro l2 st acc fresh; rfl
  | cons tin rest ih =>
    intro l2 st acc fresh
    cases hd : tin.var.defined with
    | true =>
      cases hb : tin.buffer with
      | some b =>
        have hstep : ∀ (l : List TraceInput),
            enterLoop st acc fresh (tin :: l) =
              .error "JIT_ASSERT(!trace_input.buffer.defined()) failed" := by
          intro l
          rw [enterLoop]
          simp [hd, hb]
        rw [List.cons_append, hstep (rest ++ l2), hstep rest]
      | none =>
        cases ha : assocFind st.assoc tin.var.vid with
        | some val =>
          rw [List.cons_append,
            enterLoop_cons_var_dup st acc fresh tin (rest ++ l2) hd hb val ha,
            enterLoop_cons_var_dup st acc fresh tin rest hd hb val ha, ih]
        | none =>
          rw [List.cons_append,
            enterLoop_cons_var_new st acc fresh tin (rest ++ l2) hd hb ha,
            enterLoop_cons_var_new st acc fresh tin rest hd hb ha, ih]
    | false =>
      cases hb : tin.buffer with
      | none =>
        have hstep : ∀ (l : List TraceInput),
            enterLoop st acc fresh (tin :: l) =
              .error "JIT_ASSERT(trace_input.buffer.defined()) failed" := by
          intro l
          rw [enterLoop]
          simp [hd, hb]
        rw [List.cons_append, hstep (rest ++ l2), hstep rest]
      | some b =>
        rw [List.cons_append,
          enterLoop_cons_buffer st acc fresh tin (rest ++ l2) b hd hb,
          enterLoop_cons_buffer st acc fresh tin rest b hd hb, ih]

/-- The loop invariant of `enter`'s input-registration loop: the identity
allocator only grows and bounds every trace-map key, the trace map stays
duplicate-free and never loses a binding, each processed input appends
exactly one graph input, and each processed defined variable appends exactly
one returned variable and ends up associated. -/
theorem enterLoop_invariant :
    ∀ (tins : List TraceInput) (st : TracingState) (acc : List Variable)
      (fresh : Nat) (st' : TracingState) (acc' : List Variable) (fresh' : Nat),
      enterLoop st acc fresh tins = .ok (st', acc', fresh') →
      (∀ t ∈ tins, t.var.defined = true → t.var.vid < fresh) →
      (∀ k, (assocFind st.assoc k).isSome = true → k < fresh) →
      (st.assoc.map Prod.fst).Nodup →
      fresh ≤ fresh' ∧
      (∀ k, (assocFind st'.assoc k).isSome = true → k < fresh') ∧
      (st'.assoc.map Prod.fst).Nodup ∧
      (∀ k v, assocFind st.assoc k = some v → assocFind st'.assoc k = some v) ∧
      (∃ newIns, st'.graph.inputs = st.graph.inputs ++ newIns ∧
        newIns.length = tins.length) ∧
      (∃ newVars, acc' = acc ++ newVars ∧
        newVars.length = tins.countP (fun t => t.var.defined)) ∧
      (∀ t ∈ tins, t.var.defined = true → t.buffer = none →
        (assocFind st'.assoc t.var.vid).isSome = true) := by
  intro tins
  induction tins with
  | nil =>
    intro st acc fresh st' acc' fresh' h hids hkeys hnodup
    rw [enterLoop] at h
    cases h
    refine ⟨le_refl _, hkeys, hnodup, fun k v hv => hv, ⟨[], by simp, rfl⟩,
      ⟨[], by simp, rfl⟩, ?_⟩
    intro t ht
    cases ht
  | cons tin rest ih =>
    intro st acc fresh st' acc' fresh' h hids hkeys hnodup
    have hids_rest : ∀ t ∈ rest, t.var.defined = true → t.var.vid < fresh :=
      fun t ht => hids t (List.mem_cons_of_mem tin ht)
    cases hd : tin.var.defined with
    | false =>
      cases hb : tin.buffer with
      | none =>
        rw [enterLoop] at h
        simp [hd, hb] at h
      | some b =>
        rw [enterLoop_cons_buffer st acc fresh tin rest b hd hb] at h
        obtain ⟨h1, h2, h3, h4, ⟨newIns, hins, hlen⟩, ⟨newV, hvars, hvlen⟩, h7⟩ :=
          ih _ acc fresh st' acc' fresh' h hids_rest hkeys hnodup
        refine ⟨h1, h2, h3, h4, ⟨⟨st.graph.nextUnique, "", some b.bsizes⟩ :: newIns,
          by simpa [List.append_assoc] using hins, by simp [hlen]⟩,
          ⟨newV, hvars, ?_⟩, ?_⟩
        · rw [hvlen, List.countP_cons]
          simp [hd]
        · intro t ht htd htb
          rcases List.mem_cons.mp ht with rfl | ht'
          · rw [hd] at htd; cases htd
          · exact h7 t ht' htd htb
    | true =>
      cases hb : tin.buffer with
      | some b =>
        rw [enterLoop] at h
        simp [hd, hb] at h
      | none =>
        have hvid : tin.var.vid < fresh :=
          hids tin (List.mem_cons_self tin rest) hd
        cases ha : assocFind st.assoc tin.var.vid with
        | some val =>
          rw [enterLoop_cons_var_dup st acc fresh tin rest hd hb val ha] at h
          -- the alias gets the fresh identity; its key is new
          have hfr : assocFind st.assoc fresh = none := by
            cases hf : assocFind st.assoc fresh with
            | none => rfl
            | some v =>
              exact absurd (hkeys fresh (by rw [hf]; rfl)) (lt_irrefl fresh)
          have hset : assocSet st.assoc fresh st.graph.nextUnique =
              (fresh, st.graph.nextUnique) :: st.assoc :=
            assocSet_of_none _ _ _ hfr
          rw [hset] at h
          have hkeys2 : ∀ k, (assocFind ((fresh, st.graph.nextUnique) :: st.assoc) k).isSome = true →
              k < fresh + 1 := by
            intro k hk
            rw [assocFind_cons] at hk
            by_cases hkf : fresh = k
            · omega
            · rw [if_neg hkf] at hk
              have := hkeys k hk
              omega
          have hnodup2 : (((fresh, st.graph.nextUnique) :: st.assoc).map Prod.fst).Nodup := by
            simp only [List.map_cons, List.nodup_cons]
            exact ⟨(assocFind_none_iff st.assoc fresh).mp hfr, hnodup⟩
          obtain ⟨h1, h2, h3, h4, ⟨newIns, hins, hlen⟩, ⟨newV, hvars, hvlen⟩, h7⟩ :=
            ih _ _ (fresh + 1) st' acc' fresh' h
              (fun t ht htd => Nat.lt_succ_of_lt (hids_rest t ht htd))
              hkeys2 hnodup2
          have hpres : ∀ k v, assocFind st.assoc k = some v →
              assocFind st'.assoc k = some v := by
            intro k v hv
            apply h4
            rw [assocFind_cons]
            have : fresh ≠ k := by
              have := hkeys k (by rw [hv]; rfl)
              omega
            rw [if_neg this]
            exact hv
          refine ⟨by omega, h2, h3, hpres,
            ⟨⟨st.graph.nextUnique, "", some tin.var.sizes⟩ :: newIns,
              by simpa [List.append_assoc] using hins, by simp [hlen]⟩,
            ⟨Variable.dvar fresh "" tin.var.sizes :: newV,
              by simpa [List.append_assoc] using hvars, ?_⟩, ?_⟩
          · rw [List.countP_cons]
            simp [hd, hvlen]
          · intro t ht htd htb
            rcases List.mem_cons.mp ht with rfl | ht'
            · have : assocFind st'.assoc t.var.vid = some val := hpres _ _ ha
              rw [this]
              rfl
            · exact h7 t ht' htd htb
        | none =>
          rw [enterLoop_cons_var_new st acc fresh tin rest hd hb ha] at h
          have hset : assocSet st.assoc tin.var.vid st.graph.nextUnique =
              (tin.var.vid, st.graph.nextUnique) :: st.assoc :=
            assocSet_of_none _ _ _ ha
          rw [hset] at h
          have hkeys2 : ∀ k, (assocFind ((tin.var.vid, st.graph.nextUnique) :: st.assoc) k).isSome = true →
              k < fresh := by
            intro k hk
            rw [assocFind_cons] at hk
            by_cases hkf : tin.var.vid = k
            · omega
            · rw [if_neg hkf] at hk
              exact hkeys k hk
          have hnodup2 : (((tin.var.vid, st.graph.nextUnique) :: st.assoc).map Prod.fst).Nodup := by
            simp only [List.map_cons, List.nodup_cons]
            exact ⟨(assocFind_none_iff st.assoc tin.var.vid).mp ha, hnodup⟩
          obtain ⟨h1, h2, h3, h4, ⟨newIns, hins, hlen⟩, ⟨newV, hvars, hvlen⟩, h7⟩ :=
            ih _ _ fresh st' acc' fresh' h hids_rest hkeys2 hnodup2
          have hpres : ∀ k v, assocFind st.assoc k = some v →
              assocFind st'.assoc k = some v := by
            intro k v hv
            apply h4
            rw [assocFind_cons]
            have : tin.var.vid ≠ k := by
              intro heq
              rw [heq] at ha
              rw [ha] at hv
              cases hv
            rw [if_neg this]
            exact hv
          refine ⟨h1, h2, h3, hpres,
            ⟨⟨st.graph.nextUnique, tin.var.vname, some tin.var.sizes⟩ :: newIns,
              by simpa [List.append_assoc] using hins, by simp [hlen]⟩,
            ⟨tin.var :: newV,
              by simpa [List.append_assoc] using hvars, ?_⟩, ?_⟩
          · rw [List.countP_cons]
            simp [hd, hvlen]
          · intro t ht htd htb
            rcases List.mem_cons.mp ht with rfl | ht'
            · have : assocFind st'.assoc t.var.vid = some st.graph.nextUnique := by
                apply h4
                rw [assocFind_cons, if_pos rfl]
              rw [this]
              rfl
            · exact h7 t ht' htd htb

end TracerLemmas

section TokenLemmas

open Script

@[simp] theorem curTok_cons (t : Token) (ts : List Token) : curTok (t :: ts) = t := rfl

@[simp] theorem nextToks_cons (t : Token) (ts : List Token) : nextToks (t :: ts) = ts := rfl

@[simp] theorem lookaheadTok_cons (t : Token) (ts : List Token) :
    lookaheadTok (t :: ts) = curTok ts := by
  cases ts <;> rfl

end TokenLemmas

section Claims

open Script in
/-- Claim C3: parsing the expression `2 + 3 * 4` yields a tree in which the
multiplication node is the immediate right child subtree of the addition node
(multiplication binds tighter than addition), and parsing `a if b else c`
yields a conditional-expression tree whose condition subtree is `b`, whose
true branch is `a`, and whose false branch is `c`. -/
theorem C3_precedence_and_trinary_parsing :
    parseExp 100 0
      [⟨.tkNumber, 1, "2"⟩, ⟨.plus, 2, "+"⟩, ⟨.tkNumber, 3, "3"⟩,
       ⟨.star, 4, "*"⟩, ⟨.tkNumber, 5, "4"⟩, ⟨.tkNewline, 6, ""⟩] =
      .ok (.compound .plus 2
            [.compound .tkConst 1 [.num ⟨2, 0⟩, .strlit "i"],
             .compound .star 4
               [.compound .tkConst 3 [.num ⟨3, 0⟩, .strlit "i"],
                .compound .tkConst 5 [.num ⟨4, 0⟩, .strlit "i"]]],
           [⟨.tkNewline, 6, ""⟩]) ∧
    parseExp 100 0
      [⟨.tkIdent, 1, "a"⟩, ⟨.tkIf, 2, "if"⟩, ⟨.tkIdent, 3, "b"⟩,
       ⟨.tkElse, 4, "else"⟩, ⟨.tkIdent, 5, "c"⟩, ⟨.tkNewline, 6, ""⟩] =
      .ok (.compound .tkIfExpr 2
            [.compound .tkVar 3 [.compound .tkIdent 3 [.strlit "b"]],
             .compound .tkVar 1 [.compound .tkIdent 1 [.strlit "a"]],
             .compound .tkVar 5 [.compound .tkIdent 5 [.strlit "c"]]],
           [⟨.tkNewline, 6, ""⟩]) :=
  ⟨rfl, rfl⟩

open Script in
/-- Claim C7: for every `SugaredValue`, invoking a capability its concrete
variant does not support fails with a diagnostic naming the concrete kind:
the base `asValue` fails with `<kind> cannot be used as a value`, the base
`attr` with `attribute lookup is not defined on <kind>`, the base `call` with
`cannot call a <kind>`; a `SimpleValue`'s `asValue` returns its wrapped plain
`Value` unchanged. -/
theorem C7_sugared_value_capabilities :
    ∀ (k : String) (loc : Nat) (m : Method) (field : String) (v : Nat)
      (inputs : List Nat) (attributes : List Tree) (nOutputs : Nat),
      sugaredBaseAsValue k loc m =
        .error ⟨loc, k ++ " cannot be used as a value"⟩ ∧
      sugaredBaseAttr k loc m field =
        .error ⟨loc, "attribute lookup is not defined on " ++ k⟩ ∧
      sugaredBaseCall k loc m inputs attributes nOutputs =
        .error ⟨loc, "cannot call a " ++ k⟩ ∧
      SugaredValue.asValue (.host k) loc m =
        .error ⟨loc, k ++ " cannot be used as a value"⟩ ∧
      SugaredValue.call (.host k) loc m inputs attributes nOutputs =
        .error ⟨loc, "cannot call a " ++ k⟩ ∧
      SugaredValue.asValue (.simple v) loc m = .ok v := by
  intro k loc m field v inputs attributes nOutputs
  exact ⟨rfl, rfl, rfl, rfl, rfl, rfl⟩

open Script in
/-- Claim C8: the statement-terminating end-of-line check succeeds without
consuming any token when the current token is a dedent, otherwise requires
(and consumes) an explicit newline token, failing when the next token is
neither; hence a statement immediately preceding a dedent parses although no
explicit newline token is present. -/
theorem C8_end_of_line_tolerance :
    (∀ toks : List Token,
      ((curTok toks).kind = .tkDedent → expectEndOfLine toks = .ok ((), toks)) ∧
      ((curTok toks).kind = .tkNewline →
        expectEndOfLine toks = .ok ((), nextToks toks)) ∧
      ((curTok toks).kind ≠ .tkDedent → (curTok toks).kind ≠ .tkNewline →
        expectEndOfLine toks = .error ⟨(curTok toks).range, "expected token"⟩)) ∧
    parseStmt 100 [⟨.tkNumber, 1, "2"⟩, ⟨.tkDedent, 2, ""⟩] =
      .ok (.compound .tkExprStmt 1 [.compound .tkConst 1 [.num ⟨2, 0⟩, .strlit "i"]],
           [⟨.tkDedent, 2, ""⟩]) := by
  refine ⟨fun toks => ⟨?_, ?_, ?_⟩, rfl⟩
  · intro h
    simp [expectEndOfLine, h]
  · intro h
    simp [expectEndOfLine, expectTok, h]
  · intro h1 h2
    simp [expectEndOfLine, expectTok, h1, h2]

open Script in
/-- Witness for C8: at a dedent the end-of-line check succeeds with the
stream untouched. -/
theorem C8_end_of_line_tolerance_witness :
    expectEndOfLine [⟨.tkDedent, 7, ""⟩] = .ok ((), [⟨.tkDedent, 7, ""⟩]) :=
  (C8_end_of_line_tolerance.1 [⟨.tkDedent, 7, ""⟩]).1 rfl

open Script in
/-- Claim C5: a numeric literal whose text contains a decimal point is tagged
`"f"`, otherwise `"i"`; an explicit trailing identifier suffix overrides the
tag but must be exactly `"f"` or `"LL"`, any other suffix being a
compile-time error at that token; `true` and `false` parse to constants with
value 1 and 0 tagged `"b"`. -/
theorem C5_parse_const_typing :
    ∀ (toks rest rest2 : List Token) (t s : Token),
      ((curTok toks).kind = .tkTrue →
        parseConst toks =
          .ok (.compound .tkConst (curTok toks).range [.num ⟨1, 0⟩, .strlit "b"],
               nextToks toks)) ∧
      ((curTok toks).kind = .tkFalse →
        parseConst toks =
          .ok (.compound .tkConst (curTok toks).range [.num ⟨0, 0⟩, .strlit "b"],
               nextToks toks)) ∧
      (toks = t :: rest → t.kind = .tkNumber → (curTok rest).kind ≠ .tkIdent →
        parseConst toks =
          .ok (.compound .tkConst t.range
                [.num ((doubleValue t.text).scaleBy 1),
                 .strlit (if t.text.toList.contains '.' then "f" else "i")],
               rest)) ∧
      (toks = t :: s :: rest2 → t.kind = .tkNumber → s.kind = .tkIdent →
        (s.text = "f" ∨ s.text = "LL") →
        parseConst toks =
          .ok (.compound .tkConst t.range
                [.num ((doubleValue t.text).scaleBy 1), .strlit s.text],
               rest2)) ∧
      (toks = t :: s :: rest2 → t.kind = .tkNumber → s.kind = .tkIdent →
        s.text ≠ "f" → s.text ≠ "LL" →
        parseConst toks =
          .error ⟨s.range,
            "expected 'f' or 'LL' as numeric type identifier but found '"
              ++ s.text ++ "'"⟩) := by
  intro toks rest rest2 t s
  refine ⟨?_, ?_, ?_, ?_, ?_⟩
  · intro h
    simp [parseConst, h]
  · intro h
    by_cases htrue : (curTok toks).kind = .tkTrue
    · rw [htrue] at h; cases h
    · simp [parseConst, htrue, h]
  · intro h ht hni
    subst h
    simp [parseConst, munchMinuses, expectTok, ht, hni]
  · intro h ht hs hfll
    subst h
    rcases hfll with hf | hll
    · simp [parseConst, munchMinuses, expectTok, ht, hs, hf]
    · simp [parseConst, munchMinuses, expectTok, ht, hs, hll]
  · intro h ht hs hnf hnll
    subst h
    simp [parseConst, munchMinuses, expectTok, ht, hs, hnf, hnll]

open Script in
/-- Witness for C5: each branch of the literal rule at a concrete token
stream — `true`, `false`, `2.5` (tagged `f`), `2` (tagged `i`), `3f`
(suffix override), and `3q` (rejected suffix, error at that token). -/
theorem C5_parse_const_typing_witness :
    parseConst [⟨.tkTrue, 1, "True"⟩] =
      .ok (.compound .tkConst 1 [.num ⟨1, 0⟩, .strlit "b"], []) ∧
    parseConst [⟨.tkFalse, 1, "False"⟩] =
      .ok (.compound .tkConst 1 [.num ⟨0, 0⟩, .strlit "b"], []) ∧
    parseConst [⟨.tkNumber, 1, "2.5"⟩, ⟨.tkNewline, 2, ""⟩] =
      .ok (.compound .tkConst 1
            [.num ((doubleValue "2.5").scaleBy 1), .strlit "f"],
           [⟨.tkNewline, 2, ""⟩]) ∧
    parseConst [⟨.tkNumber, 1, "2"⟩, ⟨.tkNewline, 2, ""⟩] =
      .ok (.compound .tkConst 1
            [.num ((doubleValue "2").scaleBy 1), .strlit "i"],
           [⟨.tkNewline, 2, ""⟩]) ∧
    parseConst [⟨.tkNumber, 1, "3"⟩, ⟨.tkIdent, 2, "f"⟩] =
      .ok (.compound .tkConst 1
            [.num ((doubleValue "3").scaleBy 1), .strlit "f"], []) ∧
    parseConst [⟨.tkNumber, 1, "3"⟩, ⟨.tkIdent, 2, "q"⟩] =
      .error ⟨2, "expected 'f' or 'LL' as numeric type identifier but found 'q'"⟩ := by
  refine ⟨?_, ?_, ?_, ?_, ?_, ?_⟩
  · exact ((C5_parse_const_typing [⟨.tkTrue, 1, "True"⟩] [] []
      ⟨.tkTrue, 1, "True"⟩ ⟨.tkTrue, 1, "True"⟩).1) rfl
  · exact ((C5_parse_const_typing [⟨.tkFalse, 1, "False"⟩] [] []
      ⟨.tkFalse, 1, "False"⟩ ⟨.tkFalse, 1, "False"⟩).2.1) rfl
  · exact ((C5_parse_const_typing
      [⟨.tkNumber, 1, "2.5"⟩, ⟨.tkNewline, 2, ""⟩] [⟨.tkNewline, 2, ""⟩] []
      ⟨.tkNumber, 1, "2.5"⟩ ⟨.tkNumber, 1, "2.5"⟩).2.2.1) rfl rfl (by decide)
  · exact ((C5_parse_const_typing
      [⟨.tkNumber, 1, "2"⟩, ⟨.tkNewline, 2, ""⟩] [⟨.tkNewline, 2, ""⟩] []
      ⟨.tkNumber, 1, "2"⟩ ⟨.tkNumber, 1, "2"⟩).2.2.1) rfl rfl (by decide)
  · exact ((C5_parse_const_typing
      [⟨.tkNumber, 1, "3"⟩, ⟨.tkIdent, 2, "f"⟩] [] []
      ⟨.tkNumber, 1, "3"⟩ ⟨.tkIdent, 2, "f"⟩).2.2.2.1) rfl rfl rfl (.inl rfl)
  · exact ((C5_parse_const_typing
      [⟨.tkNumber, 1, "3"⟩, ⟨.tkIdent, 2, "q"⟩] [] []
      ⟨.tkNumber, 1, "3"⟩ ⟨.tkIdent, 2, "q"⟩).2.2.2.2) rfl rfl rfl
      (by decide) (by decide)

open Onnx in
/-- Claim C10: graph validation before export rejects, besides C++/Python
custom operator nodes, the `Expand` kind and empty kind names, every node
whose kind name begins with a character that is not an upper-case letter (the
lower-case ATen namespace): the graph fails validation, and when such a node
is a plain IR node its rejection is the `Couldn't export operator` error
naming the operator and its source location. -/
theorem C10_validate_rejects_lowercase_kinds :
    ∀ (g : EGraph) (n : ENode) (ch : Char) (chs : List Char),
      n ∈ g.nodes →
      n.kind.toList = ch :: chs →
      isUpperAscii ch = false →
      (∃ e, validateGraph g = .error e) ∧
      (n.variant = .baseOp →
        validateNode g n =
          .error (failExportMsg g ("Couldn't export operator " ++ n.kind
            ++ " Defined at:\n" ++ getNodeStackTraceString n))) := by
  intro g n ch chs hmem hl hup
  constructor
  · cases hv : validateGraph g with
    | ok u =>
      cases u
      exfalso
      have hok := validateNodeList_ok_mem g g.nodes hv n hmem
      obtain ⟨e, he⟩ := validateNode_error_of_nonupper g n ch chs hl hup
      rw [he] at hok
      cases hok
    | error e => exact ⟨e, rfl⟩
  · intro hbase
    exact validateNode_baseOp_nonupper_msg g n ch chs hbase hl hup

open Onnx in
/-- Witness for C10: a graph holding a single lower-case ATen node `add`
fails validation with the `Couldn't export operator` message carrying the
node's source location. -/
theorem C10_validate_rejects_lowercase_kinds_witness :
    (∃ e, validateGraph
        (.mk [] [] [.mk .baseOp "add" [] [] [] (some "at model.py:3")]) = .error e) ∧
    validateNode (.mk [] [] [.mk .baseOp "add" [] [] [] (some "at model.py:3")])
        (.mk .baseOp "add" [] [] [] (some "at model.py:3")) =
      .error (failExportMsg
        (.mk [] [] [.mk .baseOp "add" [] [] [] (some "at model.py:3")])
        ("Couldn't export operator add Defined at:\nat model.py:3")) := by
  have h := C10_validate_rejects_lowercase_kinds
    (.mk [] [] [.mk .baseOp "add" [] [] [] (some "at model.py:3")])
    (.mk .baseOp "add" [] [] [] (some "at model.py:3"))
    'a' ['d', 'd'] (List.mem_cons_self _ _) rfl rfl
  exact ⟨h.1, h.2 rfl⟩

open Onnx in
/-- Claim C4: when exporting a graph with `k` initializer tensors, the `i`-th
initializer record (0-based) is given exactly the name of the graph input at
position `(number of graph inputs − k + i)` — initializers are matched to
declared inputs purely by position. -/
theorem C4_initializer_names_positional :
    ∀ (g : EGraph) (inits : List Tensor) (p : GraphProto) (i : Nat),
      encodeGraph g inits = .ok p →
      inits.length ≤ g.inputs.length →
      i < inits.length →
      ∃ tp v, p.initializers.get? i = some tp ∧
        g.inputs.get? (g.inputs.length - inits.length + i) = some v ∧
        tp.name = v.uniqueName := by
  intro g inits p i h hk hi
  obtain ⟨ips, ops, nps, tps, h1, h2, h3, h4, hp⟩ := encodeGraph_ok_parts g inits p h
  subst hp
  obtain ⟨hlenT, hgetT⟩ := encodeInitializers_spec inits ips _ tps h4
  obtain ⟨tp, htp, hname⟩ := hgetT i hi
  obtain ⟨hlenI, hgetI⟩ := encodeValueInfos_spec g.inputs ips h1
  have hmlt : g.inputs.length - inits.length + i < g.inputs.length := by omega
  have hv : g.inputs.get? (g.inputs.length - inits.length + i) =
      some (g.inputs.get ⟨g.inputs.length - inits.length + i, hmlt⟩) :=
    List.get?_eq_get hmlt
  obtain ⟨pv, hpv, hpvname⟩ := hgetI _ _ hv
  have hc : ((g.inputs.length : Int) - (inits.length : Int) + (i : Int)) =
      ((g.inputs.length - inits.length + i : Nat) : Int) := by
    push_cast
    omega
  rw [hc] at hname
  have hgin : getInputName ips ((g.inputs.length - inits.length + i : Nat) : Int) =
      pv.name := by
    unfold getInputName
    rw [Int.toNat_natCast, hpv]
  refine ⟨tp, _, ?_, hv, ?_⟩
  · simpa [GraphProto.initializers] using htp
  · rw [hname, hgin, hpvname]

open Onnx in
/-- Witness for C4: a two-input graph with one initializer names the
initializer record after the second input (`2 − 1 + 0 = 1`). -/
theorem C4_initializer_names_positional_witness :
    encodeGraph
        (.mk [⟨"x", "Param", .tensorType .float [1]⟩,
              ⟨"y", "Param", .tensorType .float [1]⟩] [] [])
        [⟨[1], .float, 42⟩] =
      .ok (.mk "torch-jit-export"
            [⟨"x", .kFLOAT, [1]⟩, ⟨"y", .kFLOAT, [1]⟩] [] []
            [⟨[1], .kFLOAT, 42, "y"⟩]) ∧
    (∃ tp v,
      (GraphProto.mk "torch-jit-export"
          [⟨"x", .kFLOAT, [1]⟩, ⟨"y", .kFLOAT, [1]⟩] [] []
          [⟨[1], .kFLOAT, 42, "y"⟩]).initializers.get? 0 = some tp ∧
      (EGraph.mk [⟨"x", "Param", .tensorType .float [1]⟩,
                  ⟨"y", "Param", .tensorType .float [1]⟩] [] []).inputs.get?
        ((EGraph.mk [⟨"x", "Param", .tensorType .float [1]⟩,
                     ⟨"y", "Param", .tensorType .float [1]⟩] [] []).inputs.length
          - 1 + 0) = some v ∧
      tp.name = v.uniqueName) :=
  ⟨rfl,
   C4_initializer_names_positional
     (.mk [⟨"x", "Param", .tensorType .float [1]⟩,
           ⟨"y", "Param", .tensorType .float [1]⟩] [] [])
     [⟨[1], .float, 42⟩]
     (.mk "torch-jit-export"
        [⟨"x", .kFLOAT, [1]⟩, ⟨"y", .kFLOAT, [1]⟩] [] []
        [⟨[1], .kFLOAT, 42, "y"⟩])
     0 rfl (by decide) (by decide)⟩

open Onnx in
/-- Claim C9: during graph encoding, every node of kind `Undefined` is
silently omitted from the exported node list; every node input whose
producing node has kind `Undefined` is encoded as an empty-string name
reference instead of that value's unique name; all other nodes and inputs
are encoded with their unique names in graph order. -/
theorem C9_undefined_node_encoding :
    ∀ (g : EGraph) (inits : List Tensor) (p : GraphProto),
      encodeGraph g inits = .ok p →
      p.nodes.length = (g.nodes.filter (fun n => n.kind ≠ kUndefined)).length ∧
      ∀ i n, (g.nodes.filter (fun n => n.kind ≠ kUndefined)).get? i = some n →
        ∃ np, p.nodes.get? i = some np ∧
          np.opType = n.kind ∧
          np.inputs = n.inputs.map
            (fun v => if v.producerKind = kUndefined then "" else v.uniqueName) ∧
          np.outputs = n.outputs.map EValue.uniqueName ∧
          np.docString = n.srcLoc := by
  intro g inits p h
  obtain ⟨ips, ops, nps, tps, h1, h2, h3, h4, hp⟩ := encodeGraph_ok_parts g inits p h
  subst hp
  obtain ⟨hlen, hget⟩ := encodeNodeList_spec g.nodes nps h3
  constructor
  · simpa [GraphProto.nodes] using hlen
  · intro i n hn
    obtain ⟨np, hnp, hop, hin, hout, hdoc⟩ := hget i n hn
    exact ⟨np, by simpa [GraphProto.nodes] using hnp, hop, hin, hout, hdoc⟩

open Onnx in
/-- Witness for C9: a graph with an `Undefined` node feeding an `Add` node —
the exported node list holds only the `Add` node, whose first input is the
empty-string reference and whose second input and output keep their unique
names. -/
theorem C9_undefined_node_encoding_witness :
    encodeGraph
        (.mk [] []
          [.mk .baseOp "Undefined" [] [⟨"u", "Undefined", .tensorType .float []⟩] [] none,
           .mk .baseOp "Add"
             [⟨"u", "Undefined", .tensorType .float []⟩,
              ⟨"x", "Param", .tensorType .float []⟩]
             [⟨"y", "Add", .tensorType .float []⟩] [] (some "at m.py:7")]) [] =
      .ok (.mk "torch-jit-export" [] []
            [.mk (some "at m.py:7") ["", "x"] ["y"] "Add" []] []) ∧
    (∃ np,
      (GraphProto.mk "torch-jit-export" [] []
          [.mk (some "at m.py:7") ["", "x"] ["y"] "Add" []] []).nodes.get? 0 =
        some np ∧
      np.opType = ENode.kind (.mk .baseOp "Add"
          [⟨"u", "Undefined", .tensorType .float []⟩,
           ⟨"x", "Param", .tensorType .float []⟩]
          [⟨"y", "Add", .tensorType .float []⟩] [] (some "at m.py:7")) ∧
      np.inputs = (ENode.inputs (.mk .baseOp "Add"
          [⟨"u", "Undefined", .tensorType .float []⟩,
           ⟨"x", "Param", .tensorType .float []⟩]
          [⟨"y", "Add", .tensorType .float []⟩] [] (some "at m.py:7"))).map
        (fun v => if v.producerKind = kUndefined then "" else v.uniqueName) ∧
      np.outputs = (ENode.outputs (.mk .baseOp "Add"
          [⟨"u", "Undefined", .tensorType .float []⟩,
           ⟨"x", "Param", .tensorType .float []⟩]
          [⟨"y", "Add", .tensorType .float []⟩] [] (some "at m.py:7"))).map
        EValue.uniqueName ∧
      np.docString = ENode.srcLoc (.mk .baseOp "Add"
          [⟨"u", "Undefined", .tensorType .float []⟩,
           ⟨"x", "Param", .tensorType .float []⟩]
          [⟨"y", "Add", .tensorType .float []⟩] [] (some "at m.py:7"))) :=
  ⟨rfl,
   (C9_undefined_node_encoding
     (.mk [] []
       [.mk .baseOp "Undefined" [] [⟨"u", "Undefined", .tensorType .float []⟩] [] none,
        .mk .baseOp "Add"
          [⟨"u", "Undefined", .tensorType .float []⟩,
           ⟨"x", "Param", .tensorType .float []⟩]
          [⟨"y", "Add", .tensorType .float []⟩] [] (some "at m.py:7")]) []
     (.mk "torch-jit-export" [] []
        [.mk (some "at m.py:7") ["", "x"] ["y"] "Add" []] [])
     rfl).2 0 _ rfl⟩

open Onnx in
/-- Counterexample to claim C1 as stated: a graph holding both an empty-kind
node and an `Expand` node.  Export does fail before any bytes are produced,
but the error raised is the empty-name rejection, whose message carries no
node's source location (neither the empty-kind node's `at bad.py:1` nor the
`Expand` node's `at bad.py:2`), only the graph's textual form. -/
theorem C1_export_expand_counterexample :
    (∃ n ∈ (EGraph.mk [] []
        [.mk .baseOp "" [] [] [] (some "at bad.py:1"),
         .mk .baseOp "Expand" [] [] [] (some "at bad.py:2")]).nodes,
      n.kind = kExpand) ∧
    ExportGraph (EGraph.mk [] []
        [.mk .baseOp "" [] [] [] (some "at bad.py:1"),
         .mk .baseOp "Expand" [] [] [] (some "at bad.py:2")]) [] 6 =
      .error "ONNX export failed: Operator to export had empty name (please file an issue)\n\nGraph we tried to export:\ngraph(...):\n\nExpand" ∧
    ¬ strInfix "at bad.py:1"
      "ONNX export failed: Operator to export had empty name (please file an issue)\n\nGraph we tried to export:\ngraph(...):\n\nExpand" ∧
    ¬ strInfix "at bad.py:2"
      "ONNX export failed: Operator to export had empty name (please file an issue)\n\nGraph we tried to export:\ngraph(...):\n\nExpand" :=
  ⟨⟨.mk .baseOp "Expand" [] [] [] (some "at bad.py:2"),
    List.mem_cons_of_mem _ (List.mem_cons_self _ _), rfl⟩,
   rfl, by decide, by decide⟩

open Onnx in
/-- Claim C1 as amended: for every graph containing an `Expand`-kind node in
which no node has an empty kind name, export raises an error during the
initial validation pass, before any bytes of the output buffer are produced,
and the error message includes the offending (first rejected) node's source
location and the graph's textual form.  (The amendment excludes empty kind
names: their rejection message carries no source location, see the
counterexample.) -/
theorem C1_export_expand_fails :
    ∀ (g : EGraph) (inits : List Tensor) (ver : Int),
      (∃ n ∈ g.nodes, n.kind = kExpand) →
      (∀ n ∈ g.nodes, n.kind ≠ "") →
      ∃ e, ExportGraph g inits ver = .error e ∧
        strInfix (graphToString g) e ∧
        ∃ n ∈ g.nodes, validateNode g n = .error e ∧
          strInfix (getNodeStackTraceString n) e := by
  intro g inits ver hexpand hne
  obtain ⟨nE, hmemE, hkE⟩ := hexpand
  cases hv : validateGraph g with
  | ok u =>
    cases u
    exfalso
    have hok := validateNodeList_ok_mem g g.nodes hv nE hmemE
    obtain ⟨e, he⟩ := validateNode_error_of_expand g nE hkE
    rw [he] at hok
    cases hok
  | error e =>
    obtain ⟨n, hmem, herr⟩ := validateNodeList_error_mem g g.nodes e hv
    have hparts := validateNode_error_parts g n e herr (hne n hmem)
    refine ⟨e, ?_, hparts.1, n, hmem, herr, hparts.2⟩
    simp [ExportGraph, hv]

open Onnx in
/-- Witness for C1 (amended): a graph holding a single `Expand` node fails
export with a message carrying that node's location and the graph's form. -/
theorem C1_export_expand_fails_witness :
    (∃ n ∈ (EGraph.mk [] []
        [.mk .baseOp "Expand" [] [] [] (some "at w.py:9")]).nodes,
      n.kind = kExpand) ∧
    (∀ n ∈ (EGraph.mk [] []
        [.mk .baseOp "Expand" [] [] [] (some "at w.py:9")]).nodes,
      n.kind ≠ "") ∧
    ∃ e, ExportGraph (EGraph.mk [] []
        [.mk .baseOp "Expand" [] [] [] (some "at w.py:9")]) [] 6 = .error e ∧
      strInfix (graphToString (EGraph.mk [] []
        [.mk .baseOp "Expand" [] [] [] (some "at w.py:9")])) e ∧
      ∃ n ∈ (EGraph.mk [] []
          [.mk .baseOp "Expand" [] [] [] (some "at w.py:9")]).nodes,
        validateNode (EGraph.mk [] []
          [.mk .baseOp "Expand" [] [] [] (some "at w.py:9")]) n = .error e ∧
        strInfix (getNodeStackTraceString n) e :=
  ⟨⟨.mk .baseOp "Expand" [] [] [] (some "at w.py:9"), List.mem_cons_self _ _, rfl⟩,
   by
     intro n hn
     simp only [EGraph.nodes, List.mem_singleton] at hn
     subst hn
     decide,
   C1_export_expand_fails
     (EGraph.mk [] [] [.mk .baseOp "Expand" [] [] [] (some "at w.py:9")]) [] 6
     ⟨.mk .baseOp "Expand" [] [] [] (some "at w.py:9"), List.mem_cons_self _ _, rfl⟩
     (by
       intro n hn
       simp only [EGraph.nodes, List.mem_singleton] at hn
       subst hn
       decide)⟩

open Tracer in
/-- Counterexample to claim C2 as stated: an undefined output variable has no
recorded `Value` in the state being exited, yet `detail::_exit` does not fail
— `getOutputTrace` creates a fresh `Undefined` node for it and a graph is
produced.  (The state used is exactly the one `enter([], 1)` creates.) -/
theorem C2_exit_no_dependence_counterexample :
    enter [] 1 0 =
      .ok (⟨⟨[], [], [], 0, 0⟩, [], [], true, [([], [])], []⟩, [], 0) ∧
    assocFind (TracingState.mk ⟨[], [], [], 0, 0⟩ [] [] true [([], [])] []).assoc
      (Variable.undef).vid = none ∧
    _exit (TracingState.mk ⟨[], [], [], 0, 0⟩ [] [] true [([], [])] [])
        [Variable.undef] =
      .ok ⟨⟨[], [⟨"Undefined", [0]⟩], [0], 1, 0⟩, [], [], false,
           [([], [⟨false⟩])], []⟩ :=
  ⟨rfl, rfl, rfl⟩

open Tracer in
/-- Claim C2 as amended: for every *defined* trace output variable that was
never associated with the `TracingState` being exited, and that is the first
such output (everything before it is either undefined or associated), trace
exit fails with the "no observable data dependence" diagnostic naming that
output's index, rather than completing.  (The amendment exempts undefined
outputs, which the code turns into fresh `Undefined` nodes instead of
failing; see the counterexample.) -/
theorem C2_exit_no_dependence :
    ∀ (st : TracingState) (outputs : List Variable) (i : Nat)
      (id : Nat) (nm : String) (szs : List Int),
      outputs.get? i = some (.dvar id nm szs) →
      assocFind st.assoc id = none →
      (∀ j v, j < i → outputs.get? j = some v →
        v = Variable.undef ∨ ∃ vid, assocFind st.assoc v.vid = some vid) →
      _exit st outputs = .error (noDependenceMsg i) := by
  intro st outputs i id nm szs hget hnone hpre
  have h := exitLoop_error_at outputs st 0 i id nm szs hget hnone hpre
  rw [_exit, h]
  simp

open Tracer in
/-- Witness for C2 (amended): with only variable 5 associated, exiting on
outputs `[variable 5, variable 7]` fails naming output index 1. -/
theorem C2_exit_no_dependence_witness :
    [Variable.dvar 5 "a" [], Variable.dvar 7 "b" []].get? 1 =
      some (.dvar 7 "b" []) ∧
    assocFind (TracingState.mk ⟨[⟨0, "a", some []⟩], [], [], 1, 0⟩
        [(5, 0)] [] true [([], [])] []).assoc 7 = none ∧
    _exit (TracingState.mk ⟨[⟨0, "a", some []⟩], [], [], 1, 0⟩
        [(5, 0)] [] true [([], [])] [])
        [Variable.dvar 5 "a" [], Variable.dvar 7 "b" []] =
      .error (noDependenceMsg 1) :=
  ⟨rfl, rfl,
   C2_exit_no_dependence
     (TracingState.mk ⟨[⟨0, "a", some []⟩], [], [], 1, 0⟩
       [(5, 0)] [] true [([], [])] [])
     [Variable.dvar 5 "a" [], Variable.dvar 7 "b" []] 1 7 "b" [] rfl rfl
     (by
       intro j v hj hv
       cases j with
       | zero =>
         cases hv
         exact Or.inr ⟨0, rfl⟩
       | succ j => omega)⟩

open Tracer in
/-- Claim C6: during trace entry, an input variable already associated with
the `TracingState` being created (a repeated occurrence in the input list) is
first replaced by an aliasing no-op reshape of the variable to its own sizes
before being registered as a graph input — the replacement is a fresh
variable identity, it is associated with the graph input created at its
position, the trace map keys stay pairwise distinct (each graph input gets a
distinct association), and the returned input list contains the rewritten
variable. -/
theorem C6_enter_aliases_repeated_inputs :
    ∀ (tins : List TraceInput) (numStages fresh0 : Nat)
      (st : TracingState) (outs : List Variable) (fresh1 : Nat)
      (j id : Nat) (nm : String) (szs : List Int),
      enter tins numStages fresh0 = .ok (st, outs, fresh1) →
      (∀ t ∈ tins, t.var.defined = true → t.var.vid < fresh0) →
      tins.get? j = some ⟨.dvar id nm szs, none⟩ →
      (∃ k, k < j ∧ ∃ t, tins.get? k = some t ∧
        t.var.defined = true ∧ t.var.vid = id ∧ t.buffer = none) →
      ∃ w gv,
        outs.get? ((tins.take j).countP (fun t => t.var.defined)) = some w ∧
        w.defined = true ∧ w.sizes = szs ∧ fresh0 ≤ w.vid ∧ w.vid ≠ id ∧
        st.graph.inputs.get? j = some gv ∧
        assocFind st.assoc w.vid = some gv.vid ∧
        (st.assoc.map Prod.fst).Nodup := by
  intro tins numStages fresh0 st outs fresh1 j id nm szs h hids hgetj hdup
  obtain ⟨hjlt, -⟩ := List.get?_eq_some.mp hgetj
  rw [enter] at h
  cases hl : enterLoop
      ⟨⟨[], [], [], 0, 0⟩, [], [], false, List.replicate numStages ([], []), []⟩
      [] fresh0 tins with
  | error e => rw [hl] at h; cases h
  | ok trip =>
    obtain ⟨stL, ins, freshL⟩ := trip
    rw [hl] at h
    dsimp only at h
    cases h
    -- split the input list around position j
    have htake : tins = tins.take j
        ++ (⟨Variable.dvar id nm szs, none⟩ :: tins.drop (j + 1)) := by
      conv_lhs => rw [← List.take_append_drop j tins]
      rw [drop_eq_cons_of_get? tins j _ hgetj]
    rw [htake, enterLoop_append] at hl
    cases h1 : enterLoop
        ⟨⟨[], [], [], 0, 0⟩, [], [], false, List.replicate numStages ([], []), []⟩
        [] fresh0 (tins.take j) with
    | error e => rw [h1] at hl; cases hl
    | ok trip1 =>
      obtain ⟨st1, acc1, f1⟩ := trip1
      rw [h1] at hl
      dsimp only at hl
      -- invariant after the prefix
      obtain ⟨hf1, hkeys1, hnodup1, hpres1, ⟨nI1, hgIn1, hlenI1⟩,
          ⟨nV1, hacc1, hlenV1⟩, hreg1⟩ :=
        enterLoop_invariant (tins.take j) _ [] fresh0 st1 acc1 f1 h1
          (fun t ht htd => hids t (List.take_subset j tins ht) htd)
          (by intro k hk; simp [assocFind] at hk)
          (by simp)
      -- the earlier occurrence left `id` associated
      obtain ⟨k, hkj, t, hgetk, htd, htvid, htb⟩ := hdup
      have htmem : t ∈ tins.take j :=
        List.get?_mem (by rw [List.get?_take hkj]; exact hgetk)
      have hid1 : (assocFind st1.assoc id).isSome = true := by
        have := hreg1 t htmem htd htb
        rwa [htvid] at this
      obtain ⟨val, hval⟩ := Option.isSome_iff_exists.mp hid1
      -- the step at position j takes the alias path
      rw [enterLoop_cons_var_dup st1 acc1 f1 ⟨Variable.dvar id nm szs, none⟩
        (tins.drop (j + 1)) rfl rfl val hval] at hl
      dsimp only [Variable.sizes] at hl
      have hfr1 : assocFind st1.assoc f1 = none := by
        cases hf : assocFind st1.assoc f1 with
        | none => rfl
        | some v =>
          exact absurd (hkeys1 f1 (by rw [hf]; rfl)) (lt_irrefl f1)
      rw [assocSet_of_none _ _ _ hfr1] at hl
      -- invariant after the suffix
      obtain ⟨hf2, hkeys2, hnodupL, hpres2, ⟨nI2, hgIn2, hlenI2⟩,
          ⟨nV2, hacc2, hlenV2⟩, -⟩ :=
        enterLoop_invariant (tins.drop (j + 1)) _ _ (f1 + 1) stL outs fresh1 hl
          (fun t' ht' htd' => by
            have := hids t' (List.drop_subset (j + 1) tins ht') htd'
            omega)
          (by
            intro k' hk'
            rw [assocFind_cons] at hk'
            by_cases hkf : f1 = k'
            · omega
            · rw [if_neg hkf] at hk'
              have := hkeys1 k' hk'
              omega)
          (by
            simp only [List.map_cons, List.nodup_cons]
            exact ⟨(assocFind_none_iff st1.assoc f1).mp hfr1, hnodup1⟩)
      -- assemble the conclusions
      refine ⟨Variable.dvar f1 "" szs, ⟨st1.graph.nextUnique, "", some szs⟩,
        ?_, rfl, rfl, hf1, ?_, ?_, ?_, hnodupL⟩
      · -- position of the rewritten variable in the returned list
        have hlenacc1 : acc1.length = (tins.take j).countP (fun t => t.var.defined) := by
          rw [hacc1]
          simpa using hlenV1
        rw [hacc2, ← hlenacc1, List.append_assoc,
          List.get?_append_right (le_refl acc1.length)]
        simp
      · -- the fresh identity differs from the original one
        have hidlt : id < fresh0 := by
          have := hids _ (List.get?_mem hgetj) rfl
          simpa [Variable.vid] using this
        have : fresh0 ≤ f1 := hf1
        simp only [Variable.vid]
        omega
      · -- the graph input created at position j
        have hlen1 : st1.graph.inputs.length = j := by
          rw [hgIn1]
          simp only [List.nil_append, List.length_nil]
          rw [hlenI1, List.length_take]
          omega
        rw [hgIn2]
        dsimp only
        rw [List.append_assoc, List.get?_append_right (by omega), hlen1]
        simp
      · -- the alias's association is the new graph input's value
        simp only [Variable.vid]
        have hstep : assocFind ((f1, st1.graph.nextUnique) :: st1.assoc) f1 =
            some st1.graph.nextUnique := by
          rw [assocFind_cons, if_pos rfl]
        exact hpres2 f1 st1.graph.nextUnique hstep

open Tracer in
/-- Witness for C6: entering a trace with the same variable (identity 3)
twice — the second occurrence is rewritten to a fresh alias of the same
sizes, registered as the second graph input with its own association. -/
theorem C6_enter_aliases_repeated_inputs_witness :
    enter [⟨.dvar 3 "x" [2], none⟩, ⟨.dvar 3 "x" [2], none⟩] 1 10 =
      .ok (⟨⟨[⟨0, "x", some [2]⟩, ⟨1, "", some [2]⟩], [], [], 2, 0⟩,
            [(10, 1), (3, 0)], [], true, [([⟨true⟩, ⟨true⟩], [])],
            [Variable.dvar 3 "x" [2], Variable.dvar 10 "" [2]]⟩,
           [Variable.dvar 3 "x" [2], Variable.dvar 10 "" [2]], 11) ∧
    (∃ w gv,
      [Variable.dvar 3 "x" [2], Variable.dvar 10 "" [2]].get?
        (([(⟨.dvar 3 "x" [2], none⟩ : TraceInput),
           ⟨.dvar 3 "x" [2], none⟩].take 1).countP (fun t => t.var.defined)) =
        some w ∧
      w.defined = true ∧ w.sizes = [2] ∧ 10 ≤ w.vid ∧ w.vid ≠ 3 ∧
      (TracingState.mk ⟨[⟨0, "x", some [2]⟩, ⟨1, "", some [2]⟩], [], [], 2, 0⟩
          [(10, 1), (3, 0)] [] true [([⟨true⟩, ⟨true⟩], [])]
          [Variable.dvar 3 "x" [2], Variable.dvar 10 "" [2]]).graph.inputs.get? 1 =
        some gv ∧
      assocFind (TracingState.mk
          ⟨[⟨0, "x", some [2]⟩, ⟨1, "", some [2]⟩], [], [], 2, 0⟩
          [(10, 1), (3, 0)] [] true [([⟨true⟩, ⟨true⟩], [])]
          [Variable.dvar 3 "x" [2], Variable.dvar 10 "" [2]]).assoc w.vid =
        some gv.vid ∧
      ((TracingState.mk ⟨[⟨0, "x", some [2]⟩, ⟨1, "", some [2]⟩], [], [], 2, 0⟩
          [(10, 1), (3, 0)] [] true [([⟨true⟩, ⟨true⟩], [])]
          [Variable.dvar 3 "x" [2], Variable.dvar 10 "" [2]]).assoc.map
        Prod.fst).Nodup) :=
  ⟨rfl,
   C6_enter_aliases_repeated_inputs
     [⟨.dvar 3 "x" [2], none⟩, ⟨.dvar 3 "x" [2], none⟩] 1 10
     (TracingState.mk ⟨[⟨0, "x", some [2]⟩, ⟨1, "", some [2]⟩], [], [], 2, 0⟩
       [(10, 1), (3, 0)] [] true [([⟨true⟩, ⟨true⟩], [])]
       [Variable.dvar 3 "x" [2], Variable.dvar 10 "" [2]])
     [Variable.dvar 3 "x" [2], Variable.dvar 10 "" [2]] 11 1 3 "x" [2]
     rfl (by decide) rfl
     ⟨0, Nat.zero_lt_one, ⟨.dvar 3 "x" [2], none⟩, rfl, rfl, rfl, rfl⟩⟩

end Claims

end TorchJit
